import Mathlib

/-!
# Betylitics — verification of the extraction/analytics core

Shallow embedding of the Betylitics repository's core functions
(FBref scraping, table parsing, merging, identity extraction and
head-to-head analytics) together with proofs about the properties
stated in the repository's specification.

Conventions used throughout:
* Python dictionaries / `OrderedDict`s whose keys and values are strings
  are embedded as association lists `List (String × String)` with
  insertion-order semantics (`odInsert` updates an existing key in place,
  otherwise appends).
* Python `int` values are `Int`; counts are `Nat`; Python `float`
  divisions are modelled in `ℚ`.  A Python function that can raise is
  embedded as an `Option`-returning function (`none` = exception).
* Strings are handled at ASCII level: Unicode NFKD normalisation
  (`unicodedata.normalize` + ascii-ignore) is modelled by dropping
  non-ASCII code points, which agrees with the source on ASCII input.
-/

namespace Betylitics

/-- Ordered string-keyed record: the embedding of a Python `dict` /
`OrderedDict` with string keys and values, in insertion order. -/
abbrev Row := List (String × String)

/-- `d.get(k)`: first value bound to `k`, if any. -/
def rget {β : Type} (r : List (String × β)) (k : String) : Option β :=
  match r with
  | [] => none
  | (k', v) :: rest => if k' = k then some v else rget rest k

/-- `d[k] = v` on an ordered dict: update the existing binding in place
(keeping its position), otherwise append the new binding at the end. -/
def odInsert {β : Type} (r : List (String × β)) (k : String) (v : β) :
    List (String × β) :=
  match r with
  | [] => [(k, v)]
  | (k', v') :: rest =>
    if k' = k then (k', v) :: rest else (k', v') :: odInsert rest k v

/-- `k in d` for an ordered dict. -/
def odMem {β : Type} (r : List (String × β)) (k : String) : Bool :=
  match r with
  | [] => false
  | (k', _) :: rest => if k' = k then true else odMem rest k

/-- Digit run to number, most significant first. -/
def digitsToNat (cs : List Char) : Nat :=
  cs.foldl (fun n c => n * 10 + (c.toNat - '0'.toNat)) 0

/-- Python whitespace (`str.strip` / regex `\s` at ASCII level). -/
def isPySpace (c : Char) : Bool :=
  c = ' ' ∨ c = '\t' ∨ c = '\n' ∨ c = '\r' ∨ c = '\x0b' ∨ c = '\x0c'

/-- `s.strip()`: drop leading and trailing whitespace. -/
def pyStrip (cs : List Char) : List Char :=
  ((cs.dropWhile isPySpace).reverse.dropWhile isPySpace).reverse

/-- `int(s.strip())` on a decimal string: optional sign followed by a
non-empty digit run.  (Python also accepts `_` digit separators and
non-ASCII digits; no input in this development uses them.) -/
def parseIntPy (s : String) : Option Int :=
  match pyStrip s.data with
  | '-' :: rest =>
    if rest ≠ [] ∧ rest.all Char.isDigit then some (-(digitsToNat rest : Int)) else none
  | '+' :: rest =>
    if rest ≠ [] ∧ rest.all Char.isDigit then some (digitsToNat rest : Int) else none
  | t =>
    if t ≠ [] ∧ t.all Char.isDigit then some (digitsToNat t : Int) else none

/-- `re.sub(r"\(.*?\)", "", s)` on the character list: each non-greedy
parenthesised group (whose body is non-`)`/non-newline, `.` does not
match a newline) is removed; an unclosed `(` is kept.  Structural
recursion on a fuel counter (the input length bounds the number of
steps) so that the function reduces definitionally. -/
def stripParensAux : Nat → List Char → List Char
  | 0, l => l
  | _ + 1, [] => []
  | fuel + 1, '(' :: rest =>
    let body := rest.takeWhile (fun c => c ≠ ')' ∧ c ≠ '\n')
    if (rest.drop body.length).head? = some ')' then
      stripParensAux fuel (rest.drop (body.length + 1))
    else
      '(' :: stripParensAux fuel rest
  | fuel + 1, c :: rest => c :: stripParensAux fuel rest

/-- `re.sub(r"\(.*?\)", "", s)`: enough fuel for the whole input. -/
def stripParens (l : List Char) : List Char :=
  stripParensAux l.length l

/-- Split a character list at every separator character satisfying `p`
(the separators are dropped), like `re.split` with a character class. -/
def splitOnPred (p : Char → Bool) : List Char → List (List Char)
  | [] => [[]]
  | c :: cs =>
    let r := splitOnPred p cs
    if p c then [] :: r
    else
      match r with
      | [] => [[c]]
      | h :: t => (c :: h) :: t

/-- `parse_score` (src/scripts/views/h2h.py): strip parenthesised
annotations, split on hyphen or en-dash, parse the first two parts as
integers; any failure yields `(None, None)` (here: `none`). -/
def parse_score (score_str : String) : Option (Int × Int) :=
  let score_clean := stripParens score_str.data
  let parts := splitOnPred (fun c => c = '–' ∨ c = '-') score_clean
  match parts with
  | p0 :: p1 :: _ =>
    match parseIntPy (String.mk p0), parseIntPy (String.mk p1) with
    | some a, some b => some (a, b)
    | _, _ => none
  | _ => none

/-! ## `display_data` (src/scripts/views/h2h.py): H2H aggregation -/

/-- The numeric quantities computed at the top of `display_data`:
counts accumulated over the matches whose `Score` parses, the displayed
`Matches played` value, and the derived rates. -/
structure DisplayMetrics where
  matches_played : Nat
  home_win : Nat
  draw : Nat
  away_win : Nat
  btts : Nat
  over15 : Nat
  over25 : Nat
  home_goal : Int
  away_goal : Int
  home_win_pct : ℚ
  draw_pct : ℚ
  away_win_pct : ℚ
  btts_pct : ℚ
  over15_pct : ℚ
  over25_pct : ℚ
  deriving Repr, DecidableEq

/-- One accumulation step of the `for m in matches` loop in
`display_data`: matches whose score does not parse are skipped. -/
def displayStep (acc : Nat × Nat × Nat × Nat × Nat × Nat × Int × Int) (m : Row) :
    Nat × Nat × Nat × Nat × Nat × Nat × Int × Int :=
  let (hw, dr, aw, bt, o15, o25, hg, ag) := acc
  match parse_score ((rget m "Score").getD "") with
  | none => acc
  | some (hs, as_) =>
    ( (if hs > as_ then hw + 1 else hw)
    , (if hs < as_ then dr else if hs > as_ then dr else dr + 1)
    , (if hs < as_ then aw + 1 else aw)
    , (if hs > 0 ∧ as_ > 0 then bt + 1 else bt)
    , (if hs + as_ ≥ 2 then o15 + 1 else o15)
    , (if hs + as_ ≥ 3 then o25 + 1 else o25)
    , hg + hs
    , ag + as_ )

/-- `display_data` (numeric part): accumulates win/draw/loss, BTTS and
over-counts over score-parseable matches, then divides every rate by
`len(matches)`.  When `len(matches) = 0` the division
`home_win / total_games` raises `ZeroDivisionError`: embedded as `none`. -/
def display_data (ms : List Row) : Option DisplayMetrics :=
  let (hw, dr, aw, bt, o15, o25, hg, ag) :=
    ms.foldl displayStep (0, 0, 0, 0, 0, 0, 0, 0)
  let total_games := ms.length
  if total_games = 0 then none
  else some
    { matches_played := total_games
      home_win := hw, draw := dr, away_win := aw
      btts := bt, over15 := o15, over25 := o25
      home_goal := hg, away_goal := ag
      home_win_pct := (hw : ℚ) / total_games
      draw_pct := (dr : ℚ) / total_games
      away_win_pct := (aw : ℚ) / total_games
      btts_pct := (bt : ℚ) / total_games
      over15_pct := (o15 : ℚ) / total_games
      over25_pct := (o25 : ℚ) / total_games }

/-- The multiset of successfully parsed scores of a match list, in order. -/
def parsedScores (ms : List Row) : List (Int × Int) :=
  ms.filterMap (fun m => parse_score ((rget m "Score").getD ""))

/-- Number of matches whose `Score` field parses: the denominator that
the specification prescribes for the derived percentages. -/
def parseableCount (ms : List Row) : Nat :=
  (ms.filter (fun m => (parse_score ((rget m "Score").getD "")).isSome)).length

/-- BTTS events among the score-parseable matches. -/
def bttsCount (ms : List Row) : Nat :=
  (ms.filter (fun m =>
    match parse_score ((rget m "Score").getD "") with
    | some (hs, as_) => hs > 0 ∧ as_ > 0
    | none => false)).length

/-- Modelled from the spec: the BTTS percentage the specification
prescribes — BTTS events divided by the number of matches *with a
parseable score*. -/
def spec_btts_pct (ms : List Row) : ℚ :=
  (bttsCount ms : ℚ) / (parseableCount ms : ℚ)

/-- Matches whose parsed score satisfies `p`. -/
def countScore (p : Int × Int → Bool) (ms : List Row) : Nat :=
  ((parsedScores ms).filter p).length

/-- Goals scored by the table-home side over the parseable matches. -/
def homeGoals (ms : List Row) : Int := ((parsedScores ms).map Prod.fst).sum

/-- Goals scored by the table-away side over the parseable matches. -/
def awayGoals (ms : List Row) : Int := ((parsedScores ms).map Prod.snd).sum

/-! ## `current_streak` (src/scripts/views/statistics.py) -/

/-- `current_streak`: count of consecutive leading elements of `values`
satisfying `condition`, stopping at the first element that fails
(the loop `for v in values: if condition(v): streak += 1 else: break`). -/
def current_streak {α : Type} (values : List α) (condition : α → Bool) : Nat :=
  match values with
  | [] => 0
  | v :: vs => if condition v then current_streak vs condition + 1 else 0


/-! ## Team-name normalisation and venue orientation
(src/scripts/views/h2h.py) -/

/-- Lowercase a string character by character (`str.lower()` at ASCII
level). -/
def lowerStr (s : String) : String :=
  String.mk (s.data.map Char.toLower)

/-- `normalize_team_name` (src/scripts/views/h2h.py): strip diacritics
via NFKD + ascii-ignore (modelled as dropping non-ASCII code points;
inputs in this development are ASCII), lowercase, and remove whitespace
and hyphens. -/
def normalize_team_name (name : String) : String :=
  String.mk
    ((((name.data.filter (fun c => c.toNat < 128)).map Char.toLower).filter
      (fun c => ¬ (isPySpace c ∨ c = '-'))))

/-- `"-".join` of character-list tokens. -/
def joinHyphen (ts : List (List Char)) : String :=
  String.mk (List.intercalate ['-'] ts)

/-- A Python `str.isdigit()` token: non-empty, all digits. -/
def isDigitToken (t : List Char) : Bool :=
  t ≠ [] ∧ t.all Char.isDigit

/-- `extract_match_teams` (src/scripts/views/h2h.py): split the last path
segment of the report URL on hyphens, keep the tokens before the first
all-digit token, and pick the split into (home, away) that best matches
the scorebox team names after normalisation (strictly better score wins,
so the first best split is kept; initial best score is `-1`). -/
def extract_match_teams (report_url scorebox_home scorebox_away : String) :
    Option String × Option String :=
  let last_part :=
    (splitOnPred (fun c => c = '/')
      ((report_url.data.reverse.dropWhile (fun c => c = '/')).reverse)).getLastD []
  let tokens := splitOnPred (fun c => c = '-') last_part
  let candidate_tokens := tokens.takeWhile (fun t => ¬ isDigitToken t)
  let score_home_norm := normalize_team_name scorebox_home
  let score_away_norm := normalize_team_name scorebox_away
  let step := fun (acc : (Option String × Option String) × Int) (split_point : Nat) =>
    let (_, best_score) := acc
    let candidate_home := joinHyphen (candidate_tokens.take split_point)
    let candidate_away := joinHyphen (candidate_tokens.drop split_point)
    let score : Int :=
      (if normalize_team_name candidate_home = score_home_norm then 1 else 0) +
      (if normalize_team_name candidate_away = score_away_norm then 1 else 0)
    if score > best_score then ((some candidate_home, some candidate_away), score)
    else acc
  ((List.range' 1 (candidate_tokens.length - 1)).foldl step ((none, none), -1)).1

/-- Python `needle in hay` substring containment on character lists. -/
def isSubstring (needle : List Char) : List Char → Bool
  | [] => needle.isEmpty
  | c :: t => needle.isPrefixOf (c :: t) || isSubstring needle t

/-- `is_home_match` (src/scripts/views/h2h.py): a record with a missing
or empty `"Rapport de match"` field is never a home match; otherwise the
extracted home name must contain the normalised scorebox home name. -/
def is_home_match (m : Row) (scorebox_home scorebox_away : String) : Bool :=
  let report_url := (rget m "Rapport de match").getD ""
  if report_url = "" then false
  else
    match (extract_match_teams report_url scorebox_home scorebox_away).1 with
    | none => false
    | some extracted_home =>
      if extracted_home = "" then false
      else
        isSubstring (normalize_team_name scorebox_home).data
          (normalize_team_name extracted_home).data

/-- `is_away_match` (src/scripts/views/h2h.py): same guard as
`is_home_match`, with the containment test negated. -/
def is_away_match (m : Row) (scorebox_home scorebox_away : String) : Bool :=
  let report_url := (rget m "Rapport de match").getD ""
  if report_url = "" then false
  else
    match (extract_match_teams report_url scorebox_home scorebox_away).1 with
    | none => false
    | some extracted_home =>
      if extracted_home = "" then false
      else
        !(isSubstring (normalize_team_name scorebox_home).data
          (normalize_team_name extracted_home).data)

/-! ## `safe_get` fetch/backoff models
(src/scripts/controler/get_team_data.py, get_h2h_data.py,
src/fbref_players_data.py) -/

/-- Simulated result of one HTTP attempt. -/
inductive HttpResp where
  /-- 200-style response (`raise_for_status` passes). -/
  | ok : HttpResp
  /-- HTTP 429 with an optional integer `Retry-After` header (seconds). -/
  | status429 (retryAfter : Option Nat) : HttpResp
  /-- Any non-429 failure (HTTP error status or transport exception). -/
  | err : HttpResp
  deriving Repr, DecidableEq

/-- How a `safe_get` call ends. -/
inductive FetchOutcome where
  /-- The response object is returned. -/
  | success : FetchOutcome
  /-- The exception is re-raised to the caller (`FetchError`). -/
  | raised : FetchOutcome
  /-- The attempt loop is exhausted and the function returns `None`. -/
  | returnedNone : FetchOutcome
  deriving Repr, DecidableEq

/-- Attempt loop of `safe_get` in get_team_data.py / get_h2h_data.py.
`resp n` is the simulated result of attempt `n` (1-based);
`attemptsLeft` counts the remaining iterations of
`range(1, retries + 1)`.  Returns the sleeps performed (seconds; the
h2h variant's random post-success sleep is not a backoff wait and is
not recorded) and the outcome.  On 429 the code sleeps
`int(response.headers.get("Retry-After", 5))` and `continue`s without
touching `delay`; only the generic `except` path sleeps `delay` and
doubles it, and it re-raises when `attempt == retries`. -/
def safe_getAux (resp : Nat → HttpResp) : Nat → Nat → Nat → List Nat × FetchOutcome
  | _, 0, _ => ([], .returnedNone)
  | attempt, n + 1, delay =>
    match resp attempt with
    | .ok => ([], .success)
    | .status429 retryAfter =>
      let wait := retryAfter.getD 5
      let (ws, out) := safe_getAux resp (attempt + 1) n delay
      (wait :: ws, out)
    | .err =>
      if n = 0 then ([], .raised)
      else
        let (ws, out) := safe_getAux resp (attempt + 1) n (delay * 2)
        (delay :: ws, out)

/-- `safe_get(url, retries, initial_delay)` of get_team_data.py /
get_h2h_data.py (backoff behaviour; defaults `retries=3`,
`initial_delay=5`). -/
def safe_get (resp : Nat → HttpResp) (retries initial_delay : Nat) :
    List Nat × FetchOutcome :=
  safe_getAux resp 1 retries initial_delay

/-- Attempt loop of `safe_get` in src/fbref_players_data.py: on 429 it
sleeps the current `delay` and doubles it (never reading `Retry-After`);
the generic `except` path is as in the other variants; exhausting the
loop on 429s falls through to `return None`. -/
def safe_get_playersAux (resp : Nat → HttpResp) :
    Nat → Nat → Nat → List Nat × FetchOutcome
  | _, 0, _ => ([], .returnedNone)
  | attempt, n + 1, delay =>
    match resp attempt with
    | .ok => ([], .success)
    | .status429 _ =>
      let (ws, out) := safe_get_playersAux resp (attempt + 1) n (delay * 2)
      (delay :: ws, out)
    | .err =>
      if n = 0 then ([], .raised)
      else
        let (ws, out) := safe_get_playersAux resp (attempt + 1) n (delay * 2)
        (delay :: ws, out)

/-- `safe_get(url, retries, initial_delay)` of src/fbref_players_data.py
(defaults `retries=5`, `initial_delay=5`). -/
def safe_get_players (resp : Nat → HttpResp) (retries initial_delay : Nat) :
    List Nat × FetchOutcome :=
  safe_get_playersAux resp 1 retries initial_delay

/-! ## `parse_games_history_all` (src/scripts/controler/get_h2h_data.py) -/

/-- A table cell: its stripped text and the `href` of its first anchor,
if any. -/
structure HCell where
  text : String
  href : Option String
  deriving Repr, DecidableEq

/-- `urllib.parse.urljoin("https://fbref.com", link)` for the link shapes
appearing on the site: an absolute `http(s)` URL is returned unchanged, a
root-relative link is appended to scheme+host, and any other relative
link resolves against the base's empty path. -/
def urljoin_fbref (link : String) : String :=
  if link = "" then "https://fbref.com"
  else if "https://".data.isPrefixOf link.data ∨ "http://".data.isPrefixOf link.data then
    link
  else if "/".data.isPrefixOf link.data then "https://fbref.com" ++ link
  else "https://fbref.com/" ++ link

/-- The `games_history_all` table as found in the page: the first
`thead` row's cell texts and the `tbody` rows' cells. -/
structure GamesTable where
  header : List String
  body : List (List HCell)
  deriving Repr, DecidableEq

/-- One `for i, col_name in enumerate(header_cols)` step of
`parse_games_history_all`: cells beyond the row length and empty cell
texts are skipped; a `"Rapport de match"` column (after strip/lower)
carrying an anchor with an `href` has its text replaced by the joined
report URL. -/
def ghRowStep (cells : List HCell) (row : Row) (icol : Nat × String) : Row :=
  let (i, col_name) := icol
  match cells.get? i with
  | none => row
  | some cell =>
    if cell.text = "" then row
    else if lowerStr (String.mk (pyStrip col_name.data)) = "rapport de match" then
      match cell.href with
      | some link => odInsert row col_name (urljoin_fbref link)
      | none => odInsert row col_name cell.text
    else odInsert row col_name cell.text

/-- `parse_games_history_all` (row extraction): builds one ordered dict
per `tbody` row and keeps it when non-empty.  The source computes
`ten_years_ago = datetime.now() - timedelta(days=10*365)` but never uses
it — no date filter is applied to the rows — so the model takes no
processing-time parameter. -/
def parse_games_history_all (t : GamesTable) : List String × List Row :=
  let rows_data := t.body.filterMap (fun cells =>
    let row_dict := t.header.enum.foldl (ghRowStep cells) []
    if row_dict = [] then none else some row_dict)
  (t.header, rows_data)

/-! ## `extract_team_id_and_name`
(src/scripts/controler/get_h2h_data.py, src/scripts/get_matches.py) -/

/-- Attempt of the regex `r"/fr/equipes/([^/]+)/Statistiques-(.+)$"`
anchored at the head of `l`: the literal prefix, then a maximal
non-empty run of non-`/` characters (the greedy `[^/]+` must end at the
following literal `/`), then the literal, then a non-empty remainder
with no newline (`.` does not match a newline; the corner case of `$`
matching before one single trailing newline is not modelled — no
token-safe name contains a newline). -/
def matchStatistiquesAt (l : List Char) : Option (String × String) :=
  if "/fr/equipes/".data.isPrefixOf l then
    let rest := l.drop 12
    let idTok := rest.takeWhile (fun c => c ≠ '/')
    let rest2 := rest.drop idTok.length
    if idTok ≠ [] ∧ "/Statistiques-".data.isPrefixOf rest2 then
      let nm := rest2.drop 14
      if nm ≠ [] ∧ '\n' ∉ nm then some (String.mk idTok, String.mk nm) else none
    else none
  else none

/-- Attempt of the regex
`r"/fr/equipes/([^/]+)/historique/Stats-et-historique-de-(.+)$"`
anchored at the head of `l` (same conventions as
`matchStatistiquesAt`). -/
def matchHistoriqueAt (l : List Char) : Option (String × String) :=
  if "/fr/equipes/".data.isPrefixOf l then
    let rest := l.drop 12
    let idTok := rest.takeWhile (fun c => c ≠ '/')
    let rest2 := rest.drop idTok.length
    if idTok ≠ [] ∧ "/historique/Stats-et-historique-de-".data.isPrefixOf rest2 then
      let nm := rest2.drop 35
      if nm ≠ [] ∧ '\n' ∉ nm then some (String.mk idTok, String.mk nm) else none
    else none
  else none

/-- `re.search`: try the anchored match at every position, leftmost
match wins (both patterns start with a literal, so the empty suffix
never matches). -/
def searchAux (f : List Char → Option (String × String)) :
    List Char → Option (String × String)
  | [] => none
  | c :: cs => (f (c :: cs)).orElse (fun _ => searchAux f cs)

/-- `extract_team_id_and_name` (identical in get_h2h_data.py and
get_matches.py): try the `Statistiques` pattern first, then the
`historique` pattern; no match yields `(None, None)` (here `none`). -/
def extract_team_id_and_name (url : String) : Option (String × String) :=
  match searchAux matchStatistiquesAt url.data with
  | some r => some r
  | none => searchAux matchHistoriqueAt url.data

/-- The canonical team-URL shape
`https://fbref.com/fr/equipes/<TEAM_ID>/Statistiques-<TEAM_NAME>`
(format 1 in the docstring of `extract_team_id_and_name`, and the shape
of the team URLs used throughout the repository's examples). -/
def build_team_url (teamId teamName : String) : String :=
  "https://fbref.com/fr/equipes/" ++ teamId ++ "/Statistiques-" ++ teamName

/-! ## `parse_table`
(src/scripts/controler/get_team_data.py and src/fbref_players_data.py) -/

/-- A cell of a stats table: its stripped text, the `href` of its first
anchor when that anchor exists and has the attribute, and the cell's
`data-tip` attribute. -/
structure PCell where
  text : String
  href : Option String
  tip : Option String
  deriving Repr, DecidableEq

/-- A two-level-header table: the `tr` rows of its `thead` (empty when
the table has no `thead`) and the rows of its `tbody`. -/
structure HtmlTable where
  thead : List (List PCell)
  tbody : List (List PCell)
  deriving Repr, DecidableEq

/-- Header-row selection: with ≥ 2 header rows the second supplies the
field names; with exactly one, that row; otherwise no cells. -/
def headerCells (t : HtmlTable) : List PCell :=
  match t.thead with
  | [] => []
  | [r] => r
  | _ :: r1 :: _ => r1

/-- `re.sub(r"<[^>]+>", "", tip)`: remove every `<`…`>` tag with a
non-empty body; a lone `<` with no closing `>` (or immediately followed
by `>`) is kept.  Fuel-based structural recursion as in
`stripParensAux`. -/
def stripTagsAux : Nat → List Char → List Char
  | 0, l => l
  | _ + 1, [] => []
  | fuel + 1, '<' :: rest =>
    let body := rest.takeWhile (fun c => c ≠ '>')
    if body ≠ [] ∧ (rest.drop body.length).head? = some '>' then
      stripTagsAux fuel (rest.drop (body.length + 1))
    else
      '<' :: stripTagsAux fuel rest
  | fuel + 1, c :: rest => c :: stripTagsAux fuel rest

/-- `re.sub(r"<[^>]+>", "", ·)` with enough fuel. -/
def stripTags (l : List Char) : List Char :=
  stripTagsAux l.length l

/-- Tooltip post-processing shared by both `parse_table` variants:
`<br>` → newline, `<strong>`/`</strong>` → `**`, remaining tags
stripped, split on newlines, each line stripped, empty lines dropped. -/
def processTip (tip : String) : List String :=
  let tip1 := ((tip.replace "<br>" "\n").replace "<strong>" "**").replace "</strong>" "**"
  let tip2 := stripTags tip1.data
  (((splitOnPred (fun c => c = '\n') tip2).map pyStrip).filter (fun l => l ≠ [])).map
    String.mk

/-- The header loop of `parse_table`: walk the enumerated header cells,
skip every cell whose text lowercases to `"matchs"`, and accumulate the
retained field names, their column indices, and the tooltip map. -/
def headerFold (cells : List PCell) :
    List String × List Nat × List (String × List String) :=
  cells.enum.foldl (fun acc ic =>
    let (hs, idxs, tips) := acc
    let text := ic.2.text
    if lowerStr text = "matchs" then acc
    else
      let tips' :=
        match ic.2.tip with
        | none => tips
        | some tip => odInsert tips text (processTip tip)
      (hs ++ [text], idxs ++ [ic.1], tips')) ([], [], [])

/-- Retained field names (`header_sub`). -/
def retainedHeaders (t : HtmlTable) : List String :=
  (headerFold (headerCells t)).1

/-- Retained column indices (`indices_to_keep`). -/
def retainedIndices (t : HtmlTable) : List Nat :=
  (headerFold (headerCells t)).2.1

/-- Tooltip map (`sub_tip`). -/
def retainedTips (t : HtmlTable) : List (String × List String) :=
  (headerFold (headerCells t)).2.2

/-- `[cells[i] for i in indices_to_keep if i < len(cells)]`. -/
def filteredCells (idxs : List Nat) (cells : List PCell) : List PCell :=
  idxs.filterMap (fun i => cells.get? i)

/-- One `(header, cell)` step of the row loop in
get_team_data.py's `parse_table`: a `"Joueur"` column first inserts
`"Joueur URL"` (the raw `href`, empty when absent) then the text; a
`"Rapport de match"` column inserts `"Match URL"` then the text; the
second `if`'s `else` branch re-inserts the text for every non-report
column (including `"Joueur"`, which overwrites the just-written value
with the same text). -/
def rowStepTeam (row : Row) (hc : String × PCell) : Row :=
  let (header, cell) := hc
  let row1 :=
    if lowerStr header = "joueur" then
      odInsert (odInsert row "Joueur URL" (cell.href.getD "")) header cell.text
    else row
  if lowerStr header = "rapport de match" then
    odInsert (odInsert row1 "Match URL" (cell.href.getD "")) header cell.text
  else odInsert row1 header cell.text

/-- One body row of get_team_data.py's `parse_table`: rows with no
cells are skipped, rows whose retained cell count differs from the
retained header count are discarded, and a built row whose `"MJ"` field
parses to integer `0` is dropped (unparseable `"MJ"` values keep the
row). -/
def buildRowTeam (header_sub : List String) (idxs : List Nat)
    (cells : List PCell) : Option Row :=
  if cells = [] then none
  else
    let filtered := filteredCells idxs cells
    if filtered.length ≠ header_sub.length then none
    else
      let row := (header_sub.zip filtered).foldl rowStepTeam []
      match rget row "MJ" with
      | some v =>
        match parseIntPy v with
        | some 0 => none
        | _ => some row
      | none => some row

/-- `parse_table` result: the tooltip map and the row dicts. -/
structure ParsedTable where
  data_tip : List (String × List String)
  rows : List Row
  deriving Repr, DecidableEq

/-- `parse_table` (src/scripts/controler/get_team_data.py). -/
def parse_table_team (t : HtmlTable) : ParsedTable :=
  { data_tip := retainedTips t
    rows := t.tbody.filterMap (buildRowTeam (retainedHeaders t) (retainedIndices t)) }

/-- The `"Joueur URL"` value of fbref_players_data.py's `parse_table`:
the anchor's `href`, absolute-resolved against `BASE_URL` when it does
not start with `"http"`, or the empty string when there is no anchor. -/
def resolveJoueurHref (href : Option String) : String :=
  match href with
  | some u => if "http".data.isPrefixOf u.data then u else urljoin_fbref u
  | none => ""

/-- One `(header, cell)` step of the row loop in
fbref_players_data.py's `parse_table`: only the `"Joueur"` column is
special-cased, and its URL is absolute-resolved. -/
def rowStepPlayers (row : Row) (hc : String × PCell) : Row :=
  let (header, cell) := hc
  if lowerStr header = "joueur" then
    odInsert (odInsert row "Joueur URL" (resolveJoueurHref cell.href)) header cell.text
  else odInsert row header cell.text

/-- One body row of fbref_players_data.py's `parse_table` (no `"MJ"`
filter). -/
def buildRowPlayers (header_sub : List String) (idxs : List Nat)
    (cells : List PCell) : Option Row :=
  if cells = [] then none
  else
    let filtered := filteredCells idxs cells
    if filtered.length ≠ header_sub.length then none
    else some ((header_sub.zip filtered).foldl rowStepPlayers [])

/-- `parse_table` (src/fbref_players_data.py). -/
def parse_table_players (t : HtmlTable) : ParsedTable :=
  { data_tip := retainedTips t
    rows := t.tbody.filterMap (buildRowPlayers (retainedHeaders t) (retainedIndices t)) }

/-- The key multiset a team-variant row is built from: each retained
header contributes its synthetic URL keys (for `"Joueur"` /
`"Rapport de match"` columns) followed by the header itself. -/
def expandedKeysTeam (hs : List String) : List String :=
  hs.flatMap (fun h =>
    (if lowerStr h = "joueur" then ["Joueur URL"] else []) ++
    (if lowerStr h = "rapport de match" then ["Match URL"] else []) ++ [h])

/-- Same for the players variant (only `"Joueur"` is special-cased). -/
def expandedKeysPlayers (hs : List String) : List String :=
  hs.flatMap (fun h =>
    (if lowerStr h = "joueur" then ["Joueur URL"] else []) ++ [h])

/-- The association list a team-variant row amounts to when every
inserted key is fresh. -/
def expandedRowTeam (pairs : List (String × PCell)) : Row :=
  pairs.flatMap (fun p =>
    (if lowerStr p.1 = "joueur" then [("Joueur URL", p.2.href.getD "")] else []) ++
    (if lowerStr p.1 = "rapport de match" then [("Match URL", p.2.href.getD "")] else []) ++
    [(p.1, p.2.text)])

/-- Same for the players variant. -/
def expandedRowPlayers (pairs : List (String × PCell)) : Row :=
  pairs.flatMap (fun p =>
    (if lowerStr p.1 = "joueur" then [("Joueur URL", resolveJoueurHref p.2.href)] else []) ++
    [(p.1, p.2.text)])

/-! ## `merge_keeper_stats` (src/scripts/controler/get_team_data.py) -/

/-- Inner key-copy loop: for each field of the extra row, add it to the
standard row only when the key is absent — existing fields are never
touched. -/
def update_row (std extra : Row) : Row :=
  extra.foldl (fun acc kv =>
    if odMem acc kv.1 then acc else odInsert acc kv.1 kv.2) std

/-- Tooltip propagation: add each extra tooltip entry only when the key
is absent from the standard header map. -/
def update_tips (stdH extraH : List (String × List String)) :
    List (String × List String) :=
  extraH.foldl (fun acc kt =>
    if odMem acc kt.1 then acc else odInsert acc kt.1 kt.2) stdH

/-- One extra row against one standard table: every standard row whose
`"Joueur"` equals the extra row's `"Joueur"` (both via `.get`, so two
missing fields also compare equal) receives the extra row's new keys,
and the header map receives the extra table's new tooltip entries once
per match. -/
def mergeOneExtraRow (extraH : List (String × List String)) (extra_row : Row)
    (acc : List Row × List (String × List String)) :
    List Row × List (String × List String) :=
  acc.1.foldl (fun acc2 std_row =>
    if rget std_row "Joueur" = rget extra_row "Joueur" then
      (acc2.1 ++ [update_row std_row extra_row], update_tips acc2.2 extraH)
    else (acc2.1 ++ [std_row], acc2.2)) ([], acc.2)

/-- One extra table merged into one standard table. -/
def mergeExtraIntoTable (extra : ParsedTable) (std : ParsedTable) : ParsedTable :=
  let res := extra.rows.foldl (fun acc er => mergeOneExtraRow extra.data_tip er acc)
    (std.rows, std.data_tip)
  { data_tip := res.2, rows := res.1 }

/-- `merge_keeper_stats`: every extra table is merged, in order, into
every standard table. -/
def merge_keeper_stats (standard_tables extra_tables : List ParsedTable) :
    List ParsedTable :=
  extra_tables.foldl (fun stds extra => stds.map (mergeExtraIntoTable extra))
    standard_tables

/-- The merge step of `process_url`:
`merge_keeper_stats(std, extra) if extra else std`. -/
def process_url_merge (standard_tables extra_tables : List ParsedTable) :
    List ParsedTable :=
  if extra_tables ≠ [] then merge_keeper_stats standard_tables extra_tables
  else standard_tables

/-! ## Theorems -/

/-- The `display_data` accumulation loop, characterised by the filtered
counts over the parsed scores. -/
theorem foldl_displayStep (ms : List Row)
    (hw dr aw bt o15 o25 : Nat) (hg ag : Int) :
    ms.foldl displayStep (hw, dr, aw, bt, o15, o25, hg, ag) =
      ( hw + countScore (fun s => s.1 > s.2) ms
      , dr + countScore (fun s => s.1 = s.2) ms
      , aw + countScore (fun s => s.1 < s.2) ms
      , bt + countScore (fun s => s.1 > 0 ∧ s.2 > 0) ms
      , o15 + countScore (fun s => s.1 + s.2 ≥ 2) ms
      , o25 + countScore (fun s => s.1 + s.2 ≥ 3) ms
      , hg + homeGoals ms
      , ag + awayGoals ms ) := by
  induction ms generalizing hw dr aw bt o15 o25 hg ag with
  | nil => simp [countScore, parsedScores, homeGoals, awayGoals]
  | cons m rest ih =>
    simp only [List.foldl_cons]
    rcases hps : parse_score ((rget m "Score").getD "") with _ | ⟨hs, as_⟩
    · have hstep : displayStep (hw, dr, aw, bt, o15, o25, hg, ag) m
          = (hw, dr, aw, bt, o15, o25, hg, ag) := by
        simp [displayStep, hps]
      rw [hstep, ih]
      simp [countScore, parsedScores, homeGoals, awayGoals, hps]
    · have hstep : displayStep (hw, dr, aw, bt, o15, o25, hg, ag) m
          = ( (if hs > as_ then hw + 1 else hw)
            , (if hs < as_ then dr else if hs > as_ then dr else dr + 1)
            , (if hs < as_ then aw + 1 else aw)
            , (if hs > 0 ∧ as_ > 0 then bt + 1 else bt)
            , (if hs + as_ ≥ 2 then o15 + 1 else o15)
            , (if hs + as_ ≥ 3 then o25 + 1 else o25)
            , hg + hs
            , ag + as_ ) := by
        simp [displayStep, hps]
      rw [hstep, ih]
      have hcons : parsedScores (m :: rest) = (hs, as_) :: parsedScores rest := by
        simp [parsedScores, hps]
      simp only [countScore, homeGoals, awayGoals, hcons, List.filter_cons,
        List.map_cons, List.sum_cons]
      refine Prod.ext ?_ (Prod.ext ?_ (Prod.ext ?_ (Prod.ext ?_ (Prod.ext ?_
        (Prod.ext ?_ (Prod.ext ?_ ?_)))))) <;> simp <;> (try split_ifs) <;>
        (try simp_all) <;> omega



/-- C1: the aggregation `display_data` does NOT satisfy the claimed
zero-parseable contract: on the empty match list the division
`home_win / total_games` divides by zero (`ZeroDivisionError`, embedded
as `none`), and on a non-empty list whose only row has an unparseable
score it reports `Matches played` as `1` (not `0`) with every rate equal
to `0` (not undefined / NaN). -/
theorem display_data_zero_parseable_divides_by_zero :
    display_data [] = none ∧
    (∃ m, display_data [[("Score", "score")]] = some m ∧
      m.matches_played = 1 ∧
      m.home_win_pct = 0 ∧ m.draw_pct = 0 ∧ m.away_win_pct = 0 ∧
      m.btts_pct = 0 ∧ m.over15_pct = 0 ∧ m.over25_pct = 0) := by
  refine ⟨rfl, _, rfl, rfl, ?_, ?_, ?_, ?_, ?_, ?_⟩ <;> norm_num

/-- C4 (counterexample): on the two-row list with scores `"1-1"` and
`"score"`, only one score parses and it is a BTTS event, so the
specification prescribes a BTTS percentage of `1/1 = 1`; the code
computes `1/2` because it divides by the total row count. -/
theorem display_data_btts_denominator_counterexample :
    parse_score "1-1" = some (1, 1) ∧
    parse_score "score" = none ∧
    parseableCount [[("Score", "1-1")], [("Score", "score")]] = 1 ∧
    bttsCount [[("Score", "1-1")], [("Score", "score")]] = 1 ∧
    spec_btts_pct [[("Score", "1-1")], [("Score", "score")]] = 1 ∧
    (∃ m, display_data [[("Score", "1-1")], [("Score", "score")]] = some m ∧
      m.btts_pct = 1 / 2) ∧
    (1 / 2 : ℚ) ≠ 1 := by
  have h1 : bttsCount [[("Score", "1-1")], [("Score", "score")]] = 1 := by decide
  have h2 : parseableCount [[("Score", "1-1")], [("Score", "score")]] = 1 := by decide
  refine ⟨by decide, by decide, h2, h1, ?_, ⟨_, rfl, ?_⟩, by norm_num⟩
  · rw [spec_btts_pct, h1, h2]; norm_num
  · have hd : digitsToNat ['1'] = 1 := rfl
    simp only [hd]
    norm_num

/-- The BTTS filter over match rows agrees with the BTTS filter over
the parsed scores. -/
theorem bttsCount_eq_countScore (l : List Row) :
    bttsCount l = countScore (fun s => s.1 > 0 ∧ s.2 > 0) l := by
  induction l with
  | nil => rfl
  | cons m rest ih =>
    rcases hps : parse_score ((rget m "Score").getD "") with _ | ⟨hs, as_⟩
    · have h1 : bttsCount (m :: rest) = bttsCount rest := by
        simp [bttsCount, List.filter_cons, hps]
      have h2 : parsedScores (m :: rest) = parsedScores rest := by
        simp [parsedScores, hps]
      rw [h1, ih]
      simp only [countScore, h2]
    · by_cases hb : 0 < hs ∧ 0 < as_
      · have h1 : bttsCount (m :: rest) = bttsCount rest + 1 := by
          simp [bttsCount, List.filter_cons, hps, hb.1, hb.2]
        have h2 : countScore (fun s => s.1 > 0 ∧ s.2 > 0) (m :: rest)
            = countScore (fun s => s.1 > 0 ∧ s.2 > 0) rest + 1 := by
          simp [countScore, parsedScores, List.filter_cons, hps, hb.1, hb.2]
        rw [h1, h2, ih]
      · have h1 : bttsCount (m :: rest) = bttsCount rest := by
          simp only [bttsCount, List.filter_cons]
          rw [hps]
          simp [hb]
        have h2 : countScore (fun s => s.1 > 0 ∧ s.2 > 0) (m :: rest)
            = countScore (fun s => s.1 > 0 ∧ s.2 > 0) rest := by
          simp [countScore, parsedScores, List.filter_cons, hps, hb]
        rw [h1, h2, ih]

/-- C4 (amended): for every non-empty match list, each derived
percentage equals the corresponding event count over the
score-parseable matches divided by the TOTAL row count `len(matches)`
(rows with unparseable score stay in the denominator). -/
theorem display_data_pct_eq_count_div_total (ms : List Row) (h : ms ≠ []) :
    ∃ m, display_data ms = some m ∧
      m.matches_played = ms.length ∧
      m.home_win_pct = (countScore (fun s => s.1 > s.2) ms : ℚ) / ms.length ∧
      m.draw_pct = (countScore (fun s => s.1 = s.2) ms : ℚ) / ms.length ∧
      m.away_win_pct = (countScore (fun s => s.1 < s.2) ms : ℚ) / ms.length ∧
      m.btts_pct = (bttsCount ms : ℚ) / ms.length ∧
      m.over15_pct = (countScore (fun s => s.1 + s.2 ≥ 2) ms : ℚ) / ms.length ∧
      m.over25_pct = (countScore (fun s => s.1 + s.2 ≥ 3) ms : ℚ) / ms.length := by
  have hlen : ms.length ≠ 0 := fun hc => h (List.length_eq_zero.mp hc)
  have hd : display_data ms = some
      { matches_played := ms.length
        home_win := countScore (fun s => s.1 > s.2) ms
        draw := countScore (fun s => s.1 = s.2) ms
        away_win := countScore (fun s => s.1 < s.2) ms
        btts := countScore (fun s => s.1 > 0 ∧ s.2 > 0) ms
        over15 := countScore (fun s => s.1 + s.2 ≥ 2) ms
        over25 := countScore (fun s => s.1 + s.2 ≥ 3) ms
        home_goal := homeGoals ms
        away_goal := awayGoals ms
        home_win_pct := (countScore (fun s => s.1 > s.2) ms : ℚ) / ms.length
        draw_pct := (countScore (fun s => s.1 = s.2) ms : ℚ) / ms.length
        away_win_pct := (countScore (fun s => s.1 < s.2) ms : ℚ) / ms.length
        btts_pct := (countScore (fun s => s.1 > 0 ∧ s.2 > 0) ms : ℚ) / ms.length
        over15_pct := (countScore (fun s => s.1 + s.2 ≥ 2) ms : ℚ) / ms.length
        over25_pct := (countScore (fun s => s.1 + s.2 ≥ 3) ms : ℚ) / ms.length } := by
    have hfold := foldl_displayStep ms 0 0 0 0 0 0 0 0
    simp only [Nat.zero_add, zero_add] at hfold
    simp only [display_data, hfold]
    rw [if_neg hlen]
  exact ⟨_, hd, rfl, rfl, rfl, rfl, by rw [bttsCount_eq_countScore], rfl, rfl⟩

/-- C4 (amended, witness). -/
theorem display_data_pct_eq_count_div_total_witness :
    ([[("Score", "1-1")], [("Score", "score")]] : List Row) ≠ [] ∧
    (∃ m, display_data [[("Score", "1-1")], [("Score", "score")]] = some m ∧
      m.matches_played = 2 ∧
      m.btts_pct = (bttsCount [[("Score", "1-1")], [("Score", "score")]] : ℚ) / 2) := by
  refine ⟨by decide, ?_⟩
  obtain ⟨m, h1, h2, _, _, _, h6, _, _⟩ :=
    display_data_pct_eq_count_div_total
      [[("Score", "1-1")], [("Score", "score")]] (by decide)
  exact ⟨m, h1, h2, by simpa using h6⟩

/-- Leading-run characterisation used by the streak claim. -/
theorem current_streak_eq_takeWhile {α : Type} (values : List α)
    (condition : α → Bool) :
    current_streak values condition = (values.takeWhile condition).length := by
  induction values with
  | nil => rfl
  | cons v vs ih =>
    by_cases h : condition v = true <;>
      simp [current_streak, List.takeWhile_cons, h, ih]

/-- C8: `current_streak` returns the number of leading elements of the
stream satisfying the predicate, stopping at the first failure; the
empty stream yields `0`; on `["V","V","N","D"]` the predicate `= "V"`
yields `2` and the predicate `≠ "D"` yields `3`. -/
theorem current_streak_leading_count :
    (∀ {α : Type} (values : List α) (condition : α → Bool),
        current_streak values condition = (values.takeWhile condition).length) ∧
    (∀ {α : Type} (condition : α → Bool),
        current_streak ([] : List α) condition = 0) ∧
    current_streak ["V", "V", "N", "D"] (fun x => x == "V") = 2 ∧
    current_streak ["V", "V", "N", "D"] (fun x => x != "D") = 3 := by
  refine ⟨fun values condition => current_streak_eq_takeWhile values condition,
    fun _ => rfl, by decide, by decide⟩


/-- C2: evaluation of the fetch-layer backoff at the claimed scenario.
With three consecutive 429 responses carrying no `Retry-After` header,
`retries = 3` and initial delay `d = 7`, the `safe_get` of
get_team_data.py / get_h2h_data.py waits `5, 5, 5` seconds (the literal
`Retry-After` default, never `d` and never doubled) and then returns
`None` instead of raising; when a `Retry-After: 9` header is present it
waits `9, 9, 9`.  The fbref_players_data.py variant does produce the
doubled waits `7, 14, 28` (but ignores `Retry-After`), and it too
returns `None` — not a `FetchError` — when the cap is exhausted by
429s. -/
theorem safe_get_429_no_backoff_no_raise :
    safe_get (fun _ => .status429 none) 3 7 = ([5, 5, 5], .returnedNone) ∧
    safe_get (fun n => if n ≤ 3 then .status429 (some 9) else .ok) 5 7
      = ([9, 9, 9], .success) ∧
    safe_get_players (fun _ => .status429 none) 3 7
      = ([7, 14, 28], .returnedNone) ∧
    safe_get_players (fun n => if n ≤ 3 then .status429 none else .ok) 5 7
      = ([7, 14, 28], .success) ∧
    ([5, 5, 5] : List Nat) ≠ [7, 14, 28] ∧
    FetchOutcome.returnedNone ≠ FetchOutcome.raised :=
  ⟨rfl, rfl, rfl, rfl, by decide, by decide⟩

/-- C3: `parse_games_history_all` applies no recency filter.  A row
dated `2000-01-01` (more than 10 years before any processing time of
this repository) and a row whose date is not parseable are both
retained in the output. -/
theorem parse_games_history_all_keeps_old_rows :
    parse_games_history_all
      ⟨["Date", "Score"],
       [[⟨"2000-01-01", none⟩, ⟨"2–1", none⟩],
        [⟨"Date inconnue", none⟩, ⟨"1–0", none⟩]]⟩ =
      (["Date", "Score"],
       [[("Date", "2000-01-01"), ("Score", "2–1")],
        [("Date", "Date inconnue"), ("Score", "1–0")]]) := rfl

/-- C10: a match record whose `"Rapport de match"` field is missing or
empty satisfies neither `is_home_match` nor `is_away_match`, so it is
excluded from both the home-only and the away-only filtered views. -/
theorem venue_filters_exclude_reportless (m : Row) (sh sa : String)
    (h : rget m "Rapport de match" = none ∨
         rget m "Rapport de match" = some "") :
    is_home_match m sh sa = false ∧ is_away_match m sh sa = false ∧
    List.filter (fun x => is_home_match x sh sa) [m] = [] ∧
    List.filter (fun x => is_away_match x sh sa) [m] = [] := by
  have hr : (rget m "Rapport de match").getD "" = "" := by
    rcases h with h | h <;> rw [h] <;> rfl
  have h1 : is_home_match m sh sa = false := by
    simp [is_home_match, hr]
  have h2 : is_away_match m sh sa = false := by
    simp [is_away_match, hr]
  exact ⟨h1, h2, by simp [h1], by simp [h2]⟩

/-- C10 (witness). -/
theorem venue_filters_exclude_reportless_witness :
    (rget [("Score", "2-1")] "Rapport de match" = none ∨
      rget [("Score", "2-1")] "Rapport de match" = some "") ∧
    (is_home_match [("Score", "2-1")] "Paris" "Lyon" = false ∧
     is_away_match [("Score", "2-1")] "Paris" "Lyon" = false ∧
     List.filter (fun x => is_home_match x "Paris" "Lyon") [[("Score", "2-1")]] = [] ∧
     List.filter (fun x => is_away_match x "Paris" "Lyon") [[("Score", "2-1")]] = []) :=
  ⟨Or.inl (by decide),
   venue_filters_exclude_reportless [("Score", "2-1")] "Paris" "Lyon"
     (Or.inl (by decide))⟩


/-- `re.search` returns the match found at the current position. -/
theorem searchAux_cons_some (f : List Char → Option (String × String))
    (c : Char) (cs : List Char) (r : String × String)
    (h : f (c :: cs) = some r) : searchAux f (c :: cs) = some r := by
  simp [searchAux, h, Option.orElse]

/-- `takeWhile` runs through an append whose left part satisfies the
predicate everywhere. -/
theorem takeWhile_append_of_all {α : Type} (p : α → Bool) (xs ys : List α)
    (hall : ∀ b ∈ xs, p b = true) :
    (xs ++ ys).takeWhile p = xs ++ ys.takeWhile p := by
  induction xs with
  | nil => simp
  | cons b ts ih =>
    rw [List.cons_append, List.takeWhile_cons,
      if_pos (hall b (List.mem_cons_self b ts)),
      ih (fun x hx => hall x (List.mem_cons_of_mem b hx)), List.cons_append]

/-- The `Statistiques` pattern anchored at the canonical URL tail
extracts exactly the id and name. -/
theorem matchStatistiquesAt_canonical (idd nmd : List Char)
    (hid : idd ≠ []) (hidS : ∀ c ∈ idd, c ≠ '/')
    (hnm : nmd ≠ []) (hnmN : '\n' ∉ nmd) :
    matchStatistiquesAt
        ((("/fr/equipes/".data ++ idd) ++ "/Statistiques-".data) ++ nmd)
      = some (String.mk idd, String.mk nmd) := by
  have hassoc : ((("/fr/equipes/".data ++ idd) ++ "/Statistiques-".data) ++ nmd)
      = "/fr/equipes/".data ++ (idd ++ ("/Statistiques-".data ++ nmd)) := by
    simp [List.append_assoc]
  rw [hassoc]
  have hpre : "/fr/equipes/".data.isPrefixOf
      ("/fr/equipes/".data ++ (idd ++ ("/Statistiques-".data ++ nmd))) = true :=
    List.isPrefixOf_iff_prefix.mpr (List.prefix_append _ _)
  have hdrop12 : ("/fr/equipes/".data ++ (idd ++ ("/Statistiques-".data ++ nmd))).drop 12
      = idd ++ ("/Statistiques-".data ++ nmd) := by
    have h12 : ("/fr/equipes/".data).length = 12 := rfl
    rw [← h12, List.drop_left]
  have htakeTail : ("/Statistiques-".data ++ nmd).takeWhile (fun c => c ≠ '/') = [] := by
    rw [show "/Statistiques-".data ++ nmd = '/' :: ("Statistiques-".data ++ nmd) from rfl,
      List.takeWhile_cons]
    simp
  have htake : (idd ++ ("/Statistiques-".data ++ nmd)).takeWhile (fun c => c ≠ '/')
      = idd := by
    rw [takeWhile_append_of_all _ _ _ (fun a ha => by simpa using hidS a ha), htakeTail,
      List.append_nil]
  have hdropid : (idd ++ ("/Statistiques-".data ++ nmd)).drop idd.length
      = "/Statistiques-".data ++ nmd := List.drop_left _ _
  have hpre2 : "/Statistiques-".data.isPrefixOf ("/Statistiques-".data ++ nmd) = true :=
    List.isPrefixOf_iff_prefix.mpr (List.prefix_append _ _)
  have hdrop14 : ("/Statistiques-".data ++ nmd).drop 14 = nmd := by
    have h14 : ("/Statistiques-".data).length = 14 := rfl
    rw [← h14, List.drop_left]
  simp only [matchStatistiquesAt, hpre, if_true, hdrop12, htake, hdropid, hpre2,
    hdrop14]
  simp [hid, hnm, hnmN]

/-- C9: extracting the identity from the canonical
`/fr/equipes/<TEAM_ID>/Statistiques-<TEAM_NAME>` team URL built from a
non-empty slash-free id and a non-empty slash-free, newline-free
(token-safe) name returns exactly that id and name. -/
theorem extract_team_id_and_name_roundtrip (teamId teamName : String)
    (hid : teamId ≠ "") (hidS : ∀ c ∈ teamId.data, c ≠ '/')
    (hnm : teamName ≠ "") (hnmS : ∀ c ∈ teamName.data, c ≠ '/')
    (hnmN : '\n' ∉ teamName.data) :
    extract_team_id_and_name (build_team_url teamId teamName)
      = some (teamId, teamName) := by
  obtain ⟨idd⟩ := teamId
  obtain ⟨nmd⟩ := teamName
  have hid' : idd ≠ [] := fun hc => hid (by rw [hc])
  have hnm' : nmd ≠ [] := fun hc => hnm (by rw [hc])
  have hmain : searchAux matchStatistiquesAt
      (build_team_url (String.mk idd) (String.mk nmd)).data
      = some (String.mk idd, String.mk nmd) := by
    show searchAux matchStatistiquesAt
        ((("/fr/equipes/".data ++ idd) ++ "/Statistiques-".data) ++ nmd)
      = some (String.mk idd, String.mk nmd)
    exact searchAux_cons_some _ _ _ _
      (matchStatistiquesAt_canonical idd nmd hid' hidS hnm' hnmN)
  simp only [extract_team_id_and_name, hmain]

/-- C9 (witness). -/
theorem extract_team_id_and_name_roundtrip_witness :
    (("e2d8892c" : String) ≠ "" ∧ (∀ c ∈ ("e2d8892c" : String).data, c ≠ '/') ∧
     ("Paris-Saint-Germain" : String) ≠ "" ∧
     (∀ c ∈ ("Paris-Saint-Germain" : String).data, c ≠ '/') ∧
     '\n' ∉ ("Paris-Saint-Germain" : String).data) ∧
    extract_team_id_and_name (build_team_url "e2d8892c" "Paris-Saint-Germain")
      = some ("e2d8892c", "Paris-Saint-Germain") :=
  ⟨⟨by decide, by decide, by decide, by decide, by decide⟩,
   extract_team_id_and_name_roundtrip "e2d8892c" "Paris-Saint-Germain"
     (by decide) (by decide) (by decide) (by decide) (by decide)⟩


/-! ### Ordered-dict lemmas -/

/-- Inserting under a different key leaves a lookup unchanged. -/
theorem rget_odInsert_ne {β : Type} (r : List (String × β)) (k k' : String)
    (v : β) (h : k' ≠ k) : rget (odInsert r k' v) k = rget r k := by
  induction r with
  | nil => simp [odInsert, rget, h]
  | cons p rest ih =>
    by_cases hp : p.1 = k'
    · simp [odInsert, hp, rget, h, fun hc => h (hp ▸ hc)]
    · simp only [odInsert]
      rw [if_neg hp]
      by_cases hk : p.1 = k <;> simp [rget, hk, ih]

/-- A key reported absent by `odMem` has no binding. -/
theorem rget_eq_none_of_odMem_false {β : Type} (r : List (String × β))
    (k : String) (h : odMem r k = false) : rget r k = none := by
  induction r with
  | nil => rfl
  | cons p rest ih =>
    by_cases hp : p.1 = k
    · simp [odMem, hp] at h
    · simp only [odMem] at h
      rw [if_neg hp] at h
      simp [rget, hp, ih h]

/-- Inserting an absent key appends the binding. -/
theorem odInsert_of_odMem_false {β : Type} (r : List (String × β))
    (k : String) (v : β) (h : odMem r k = false) :
    odInsert r k v = r ++ [(k, v)] := by
  induction r with
  | nil => rfl
  | cons p rest ih =>
    by_cases hp : p.1 = k
    · simp [odMem, hp] at h
    · simp only [odMem] at h
      rw [if_neg hp] at h
      simp [odInsert, hp, ih h]

/-- The add-only-if-absent fold (shared by `update_row` and
`update_tips`) preserves every existing binding. -/
theorem rget_foldl_addAbsent {β : Type} (extra : List (String × β)) :
    ∀ (acc : List (String × β)) (k : String) (v : β), rget acc k = some v →
      rget (extra.foldl (fun a kv =>
        if odMem a kv.1 then a else odInsert a kv.1 kv.2) acc) k = some v := by
  induction extra with
  | nil => intro acc k v h; simpa using h
  | cons kv rest ih =>
    intro acc k v h
    simp only [List.foldl_cons]
    by_cases hm : odMem acc kv.1
    · rw [if_pos hm]; exact ih acc k v h
    · rw [if_neg hm]
      refine ih _ k v ?_
      by_cases hk : kv.1 = k
      · subst hk
        rw [rget_eq_none_of_odMem_false acc kv.1 (by simpa using hm)] at h
        cases h
      · rw [rget_odInsert_ne acc k kv.1 kv.2 hk]; exact h

/-- Membership in a one-binding extension under a different key. -/
theorem odMem_append_single {β : Type} (r : List (String × β)) (k k' : String)
    (v : β) (h : odMem (r ++ [(k', v)]) k = true) (hk : k' ≠ k) :
    odMem r k = true := by
  induction r with
  | nil => simp [odMem, hk] at h
  | cons p rest ih =>
    by_cases hp : p.1 = k
    · simp [odMem, hp]
    · simp only [List.cons_append, odMem] at h ⊢
      rw [if_neg hp] at h ⊢
      exact ih h

/-- Keys of the add-only-if-absent fold come from the accumulator or
from the added list. -/
theorem odMem_foldl_addAbsent {β : Type} (extra : List (String × β)) :
    ∀ (acc : List (String × β)) (k : String),
      odMem (extra.foldl (fun a kv =>
        if odMem a kv.1 then a else odInsert a kv.1 kv.2) acc) k = true →
      odMem acc k = true ∨ k ∈ extra.map Prod.fst := by
  induction extra with
  | nil => intro acc k h; exact Or.inl (by simpa using h)
  | cons kv rest ih =>
    intro acc k h
    simp only [List.foldl_cons] at h
    by_cases hm : odMem acc kv.1
    · rw [if_pos hm] at h
      rcases ih acc k h with h' | h'
      · exact Or.inl h'
      · exact Or.inr (List.mem_cons_of_mem _ h')
    · rw [if_neg hm] at h
      rcases ih _ k h with h' | h'
      · by_cases hk : kv.1 = k
        · exact Or.inr (by simp [← hk])
        · left
          rw [odInsert_of_odMem_false acc kv.1 kv.2 (by simpa using hm)] at h'
          exact odMem_append_single acc k kv.1 kv.2 h' hk
      · exact Or.inr (List.mem_cons_of_mem _ h')

/-! ### `merge_keeper_stats` lemmas -/

/-- `update_row` never changes an existing field. -/
theorem rget_update_row (std extra : Row) (k v : String)
    (h : rget std k = some v) : rget (update_row std extra) k = some v :=
  rget_foldl_addAbsent extra std k v h

/-- Keys of `update_row` come from the standard row or the extra row. -/
theorem odMem_update_row (std extra : Row) (k : String)
    (h : odMem (update_row std extra) k = true) :
    odMem std k = true ∨ k ∈ extra.map Prod.fst :=
  odMem_foldl_addAbsent extra std k h

/-- `update_tips` never changes an existing tooltip entry. -/
theorem rget_update_tips (stdH extraH : List (String × List String))
    (k : String) (v : List String) (h : rget stdH k = some v) :
    rget (update_tips stdH extraH) k = some v :=
  rget_foldl_addAbsent extraH stdH k v h

/-- `mergeOneExtraRow` maps every standard row through
match-and-update and folds the tooltip update over the matches. -/
theorem mergeOneExtraRow_eq (extraH : List (String × List String))
    (er : Row) (rows : List Row) (hdr : List (String × List String)) :
    mergeOneExtraRow extraH er (rows, hdr) =
      (rows.map (fun r =>
        if rget r "Joueur" = rget er "Joueur" then update_row r er else r),
       rows.foldl (fun h r =>
        if rget r "Joueur" = rget er "Joueur" then update_tips h extraH else h)
        hdr) := by
  suffices hgen : ∀ (rs : List Row) (pre : List Row) (h0 : List (String × List String)),
      rs.foldl (fun acc2 std_row =>
        if rget std_row "Joueur" = rget er "Joueur" then
          (acc2.1 ++ [update_row std_row er], update_tips acc2.2 extraH)
        else (acc2.1 ++ [std_row], acc2.2)) (pre, h0) =
      (pre ++ rs.map (fun r =>
        if rget r "Joueur" = rget er "Joueur" then update_row r er else r),
       rs.foldl (fun h r =>
        if rget r "Joueur" = rget er "Joueur" then update_tips h extraH else h) h0) by
    simpa [mergeOneExtraRow] using hgen rows [] hdr
  intro rs
  induction rs with
  | nil => intro pre h0; simp
  | cons r rest ih =>
    intro pre h0
    by_cases hm : rget r "Joueur" = rget er "Joueur" <;>
      simp [hm, ih, List.append_assoc]

/-- One extra table's row loop: length is preserved, every field value
of every standard row is preserved, new row keys come from the extra
rows, and existing tooltip entries are preserved. -/
theorem foldl_mergeOne_preserves (ers : List Row)
    (extraH : List (String × List String)) :
    ∀ (rows : List Row) (hdr : List (String × List String)),
      ((ers.foldl (fun acc er => mergeOneExtraRow extraH er acc) (rows, hdr)).1.length
        = rows.length) ∧
      (∀ j r, rows.get? j = some r →
        ∃ r', (ers.foldl (fun acc er => mergeOneExtraRow extraH er acc)
            (rows, hdr)).1.get? j = some r' ∧
          (∀ k v, rget r k = some v → rget r' k = some v) ∧
          (∀ k, odMem r' k = true → odMem r k = true ∨
            ∃ er ∈ ers, k ∈ er.map Prod.fst)) ∧
      (∀ k v, rget hdr k = some v →
        rget (ers.foldl (fun acc er => mergeOneExtraRow extraH er acc)
          (rows, hdr)).2 k = some v) := by
  induction ers with
  | nil =>
    intro rows hdr
    exact ⟨rfl, fun j r hj => ⟨r, hj, fun k v h => h, fun k h => Or.inl h⟩,
      fun k v h => h⟩
  | cons er rest ih =>
    intro rows hdr
    simp only [List.foldl_cons, mergeOneExtraRow_eq]
    set rows1 := rows.map (fun r =>
      if rget r "Joueur" = rget er "Joueur" then update_row r er else r) with hrows1
    set hdr1 := rows.foldl (fun h r =>
      if rget r "Joueur" = rget er "Joueur" then update_tips h extraH else h) hdr
      with hhdr1
    obtain ⟨hlen, hrows, htips⟩ := ih rows1 hdr1
    refine ⟨by rw [hlen, hrows1, List.length_map], ?_, ?_⟩
    · intro j r hj
      have hj1 : rows1.get? j = some (if rget r "Joueur" = rget er "Joueur"
          then update_row r er else r) := by
        rw [hrows1, List.get?_map, hj]; rfl
      obtain ⟨r', hr', hpres, hkeys⟩ := hrows j _ hj1
      refine ⟨r', hr', ?_, ?_⟩
      · intro k v h
        refine hpres k v ?_
        by_cases hm : rget r "Joueur" = rget er "Joueur"
        · rw [if_pos hm]; exact rget_update_row r er k v h
        · rw [if_neg hm]; exact h
      · intro k h
        rcases hkeys k h with h' | ⟨er2, her2, hk2⟩
        · by_cases hm : rget r "Joueur" = rget er "Joueur"
          · rw [if_pos hm] at h'
            rcases odMem_update_row r er k h' with h'' | h''
            · exact Or.inl h''
            · exact Or.inr ⟨er, List.mem_cons_self _ _, h''⟩
          · rw [if_neg hm] at h'
            exact Or.inl h'
        · exact Or.inr ⟨er2, List.mem_cons_of_mem _ her2, hk2⟩
    · intro k v h
      refine htips k v ?_
      rw [hhdr1]
      -- the tooltip fold over the rows only ever adds absent entries
      clear hhdr1 hrows1 hlen hrows htips
      induction rows generalizing hdr with
      | nil => exact h
      | cons r0 rest0 ih0 =>
        simp only [List.foldl_cons]
        by_cases hm : rget r0 "Joueur" = rget er "Joueur"
        · rw [if_pos hm]
          exact ih0 _ (rget_update_tips hdr extraH k v h)
        · rw [if_neg hm]
          exact ih0 _ h

/-- C7: `merge_keeper_stats` never overwrites: every field already
present on a standard row keeps its original value, every key of a
merged row comes from the original row or from some extra row, existing
tooltip entries are preserved, and an empty extra-table list passes the
standard tables through unchanged (both in `merge_keeper_stats` itself
and in the conditional used by `process_url`). -/
theorem merge_keeper_stats_never_overwrites (stds extras : List ParsedTable)
    (i : Nat) (t : ParsedTable) (ht : stds.get? i = some t) :
    (∃ t', (merge_keeper_stats stds extras).get? i = some t' ∧
      t'.rows.length = t.rows.length ∧
      (∀ j r, t.rows.get? j = some r →
        ∃ r', t'.rows.get? j = some r' ∧
          (∀ k v, rget r k = some v → rget r' k = some v) ∧
          (∀ k, odMem r' k = true → odMem r k = true ∨
            ∃ et ∈ extras, ∃ er ∈ et.rows, k ∈ er.map Prod.fst)) ∧
      (∀ k v, rget t.data_tip k = some v → rget t'.data_tip k = some v)) ∧
    merge_keeper_stats stds [] = stds ∧
    process_url_merge stds [] = stds := by
  refine ⟨?_, rfl, rfl⟩
  induction extras generalizing stds t with
  | nil =>
    exact ⟨t, ht, rfl, fun j r hj => ⟨r, hj, fun k v h => h,
      fun k h => Or.inl h⟩, fun k v h => h⟩
  | cons et rest ih =>
    have h1 : (stds.map (mergeExtraIntoTable et)).get? i
        = some (mergeExtraIntoTable et t) := by
      rw [List.get?_map, ht]; rfl
    obtain ⟨t', ht', hlen, hrows, htips⟩ := ih _ _ h1
    have hmerge : merge_keeper_stats stds (et :: rest)
        = merge_keeper_stats (stds.map (mergeExtraIntoTable et)) rest := rfl
    obtain ⟨hlen1, hrows1, htips1⟩ :=
      foldl_mergeOne_preserves et.rows et.data_tip t.rows t.data_tip
    refine ⟨t', by rw [hmerge]; exact ht', ?_, ?_, ?_⟩
    · rw [hlen]
      simpa [mergeExtraIntoTable] using hlen1
    · intro j r hj
      obtain ⟨r1, hr1, hpres1, hkeys1⟩ := hrows1 j r hj
      have hr1' : (mergeExtraIntoTable et t).rows.get? j = some r1 := by
        simpa [mergeExtraIntoTable] using hr1
      obtain ⟨r', hr', hpres, hkeys⟩ := hrows j r1 hr1'
      refine ⟨r', hr', fun k v h => hpres k v (hpres1 k v h), ?_⟩
      intro k h
      rcases hkeys k h with h' | ⟨et2, het2, er2, her2, hk2⟩
      · rcases hkeys1 k h' with h'' | ⟨er2, her2, hk2⟩
        · exact Or.inl h''
        · exact Or.inr ⟨et, List.mem_cons_self _ _, er2, her2, hk2⟩
      · exact Or.inr ⟨et2, List.mem_cons_of_mem _ het2, er2, her2, hk2⟩
    · intro k v h
      refine htips k v ?_
      simpa [mergeExtraIntoTable] using htips1 k v h

/-- C7 (witness). -/
theorem merge_keeper_stats_never_overwrites_witness :
    ([(⟨[("A", ["tip"])], [[("Joueur", "Alice"), ("X", "1")]]⟩ : ParsedTable)].get? 0
      = some ⟨[("A", ["tip"])], [[("Joueur", "Alice"), ("X", "1")]]⟩) ∧
    (∃ t', (merge_keeper_stats
        [⟨[("A", ["tip"])], [[("Joueur", "Alice"), ("X", "1")]]⟩]
        [⟨[("A", ["newtip"]), ("B", ["btip"])],
          [[("Joueur", "Alice"), ("X", "99"), ("Y", "7")]]⟩]).get? 0 = some t' ∧
      t'.rows.length = 1 ∧ rget t'.data_tip "A" = some ["tip"]) := by
  have h := merge_keeper_stats_never_overwrites
    [⟨[("A", ["tip"])], [[("Joueur", "Alice"), ("X", "1")]]⟩]
    [⟨[("A", ["newtip"]), ("B", ["btip"])],
      [[("Joueur", "Alice"), ("X", "99"), ("Y", "7")]]⟩] 0
    ⟨[("A", ["tip"])], [[("Joueur", "Alice"), ("X", "1")]]⟩ rfl
  obtain ⟨⟨t', ht', hlen, _, htips⟩, _, _⟩ := h
  exact ⟨rfl, t', ht', hlen, htips "A" ["tip"] rfl⟩


/-! ### Row-key lemmas for `parse_table` -/

/-- `odMem` decides key membership. -/
theorem odMem_iff_mem_keys {β : Type} (r : List (String × β)) (k : String) :
    odMem r k = true ↔ k ∈ r.map Prod.fst := by
  induction r with
  | nil => simp [odMem]
  | cons p rest ih =>
    simp only [odMem, List.map_cons, List.mem_cons]
    by_cases hp : p.1 = k
    · simp [hp]
    · rw [if_neg hp, ih]
      constructor
      · exact Or.inr
      · rintro (hc | hc)
        · exact absurd hc.symm hp
        · exact hc

/-- Key membership after an ordered-dict insert. -/
theorem mem_keys_odInsert {β : Type} (r : List (String × β)) (k k' : String)
    (v : β) : k ∈ (odInsert r k' v).map Prod.fst ↔ k = k' ∨ k ∈ r.map Prod.fst := by
  induction r with
  | nil => simp [odInsert, eq_comm]
  | cons p rest ih =>
    by_cases hp : p.1 = k'
    · subst hp
      simp [odInsert, eq_comm]
    · simp only [odInsert]
      rw [if_neg hp]
      simp only [List.map_cons, List.mem_cons, ih]
      tauto

/-- Key membership through the team-variant row fold. -/
theorem mem_keys_foldl_rowStepTeam (pairs : List (String × PCell)) :
    ∀ (r : Row) (k : String),
      k ∈ (pairs.foldl rowStepTeam r).map Prod.fst ↔
        k ∈ expandedKeysTeam (pairs.map Prod.fst) ∨ k ∈ r.map Prod.fst := by
  induction pairs with
  | nil => intro r k; simp [expandedKeysTeam]
  | cons p rest ih =>
    intro r k
    obtain ⟨h, c⟩ := p
    have hkeys : ∀ k', k' ∈ (rowStepTeam r (h, c)).map Prod.fst ↔
        (k' ∈ (if lowerStr h = "joueur" then ["Joueur URL"] else []) ++
          (if lowerStr h = "rapport de match" then ["Match URL"] else []) ++ [h] ∨
         k' ∈ r.map Prod.fst) := by
      intro k'
      unfold rowStepTeam
      by_cases hj : lowerStr h = "joueur" <;>
        by_cases hr : lowerStr h = "rapport de match" <;>
          simp only [hj, hr, if_true, if_false, ite_true, ite_false,
            mem_keys_odInsert, List.mem_append, List.mem_cons,
            List.mem_singleton, List.not_mem_nil, false_or, or_false,
            String.reduceEq, reduceIte] <;> tauto
    simp only [List.foldl_cons, List.map_cons, expandedKeysTeam, List.flatMap_cons]
    rw [ih, hkeys]
    simp only [expandedKeysTeam, List.mem_append]
    tauto

/-- Key membership through the players-variant row fold. -/
theorem mem_keys_foldl_rowStepPlayers (pairs : List (String × PCell)) :
    ∀ (r : Row) (k : String),
      k ∈ (pairs.foldl rowStepPlayers r).map Prod.fst ↔
        k ∈ expandedKeysPlayers (pairs.map Prod.fst) ∨ k ∈ r.map Prod.fst := by
  induction pairs with
  | nil => intro r k; simp [expandedKeysPlayers]
  | cons p rest ih =>
    intro r k
    obtain ⟨h, c⟩ := p
    have hkeys : ∀ k', k' ∈ (rowStepPlayers r (h, c)).map Prod.fst ↔
        (k' ∈ (if lowerStr h = "joueur" then ["Joueur URL"] else []) ++ [h] ∨
         k' ∈ r.map Prod.fst) := by
      intro k'
      unfold rowStepPlayers
      by_cases hj : lowerStr h = "joueur" <;>
        simp only [hj, if_true, if_false, ite_true, ite_false,
          mem_keys_odInsert, List.mem_append, List.mem_cons,
          List.mem_singleton, List.not_mem_nil, false_or, or_false,
          String.reduceEq, reduceIte] <;> tauto
    simp only [List.foldl_cons, List.map_cons, expandedKeysPlayers, List.flatMap_cons]
    rw [ih, hkeys]
    simp only [expandedKeysPlayers, List.mem_append]
    tauto

/-- Inversion of a successful team-variant row build. -/
theorem buildRowTeam_eq (hs : List String) (idxs : List Nat)
    (cells : List PCell) (r : Row)
    (h : buildRowTeam hs idxs cells = some r) :
    (filteredCells idxs cells).length = hs.length ∧
    r = (hs.zip (filteredCells idxs cells)).foldl rowStepTeam [] := by
  unfold buildRowTeam at h
  by_cases hc : cells = []
  · rw [if_pos hc] at h; cases h
  · rw [if_neg hc] at h
    by_cases hl : (filteredCells idxs cells).length ≠ hs.length
    · rw [if_pos hl] at h; cases h
    · rw [if_neg hl] at h
      push_neg at hl
      refine ⟨hl, ?_⟩
      simp only [] at h
      rcases hm : rget ((hs.zip (filteredCells idxs cells)).foldl rowStepTeam []) "MJ"
        with _ | v
      · simp only [hm] at h
        exact (Option.some.inj h).symm
      · simp only [hm] at h
        rcases hp : parseIntPy v with _ | n
        · simp only [hp] at h
          exact (Option.some.inj h).symm
        · simp only [hp] at h
          match n, h with
          | Int.ofNat 0, h => cases h
          | Int.ofNat (m + 1), h => exact (Option.some.inj h).symm
          | Int.negSucc m, h => exact (Option.some.inj h).symm

/-- Inversion of a successful players-variant row build. -/
theorem buildRowPlayers_eq (hs : List String) (idxs : List Nat)
    (cells : List PCell) (r : Row)
    (h : buildRowPlayers hs idxs cells = some r) :
    (filteredCells idxs cells).length = hs.length ∧
    r = (hs.zip (filteredCells idxs cells)).foldl rowStepPlayers [] := by
  unfold buildRowPlayers at h
  by_cases hc : cells = []
  · rw [if_pos hc] at h; cases h
  · rw [if_neg hc] at h
    by_cases hl : (filteredCells idxs cells).length ≠ hs.length
    · rw [if_pos hl] at h; cases h
    · rw [if_neg hl] at h
      push_neg at hl
      exact ⟨hl, (Option.some.inj h).symm⟩

/-- C5 (counterexample): on a table with a retained `"Joueur"` column,
the emitted row's field-name set contains `"Joueur URL"`, which is not
in the retained header field list `["Joueur", "MJ"]`. -/
theorem parse_table_row_keys_counterexample :
    retainedHeaders ⟨[[⟨"Joueur", none, none⟩, ⟨"MJ", none, none⟩]],
        [[⟨"Alice", some "/fr/joueurs/a", none⟩, ⟨"3", none, none⟩]]⟩
      = ["Joueur", "MJ"] ∧
    (parse_table_team ⟨[[⟨"Joueur", none, none⟩, ⟨"MJ", none, none⟩]],
        [[⟨"Alice", some "/fr/joueurs/a", none⟩, ⟨"3", none, none⟩]]⟩).rows.map
        (List.map Prod.fst)
      = [["Joueur URL", "Joueur", "MJ"]] ∧
    "Joueur URL" ∈ (["Joueur URL", "Joueur", "MJ"] : List String) ∧
    "Joueur URL" ∉ (["Joueur", "MJ"] : List String) := by
  refine ⟨rfl, rfl, by decide, by decide⟩

/-- C5 (amended): every row emitted by either `parse_table` variant has
as field-name set exactly the retained header field list augmented with
the synthetic URL keys (`"Joueur URL"` before a retained `"Joueur"`
column, and `"Match URL"` before a retained `"Rapport de match"` column
in the team variant); a body row whose retained cell count differs from
the retained header count is discarded, not emitted. -/
theorem parse_table_row_keys (t : HtmlTable) (r rp : Row)
    (hr : r ∈ (parse_table_team t).rows)
    (hrp : rp ∈ (parse_table_players t).rows)
    (cells : List PCell)
    (hlen : (filteredCells (retainedIndices t) cells).length
      ≠ (retainedHeaders t).length) :
    (∀ k, k ∈ r.map Prod.fst ↔ k ∈ expandedKeysTeam (retainedHeaders t)) ∧
    (∀ k, k ∈ rp.map Prod.fst ↔ k ∈ expandedKeysPlayers (retainedHeaders t)) ∧
    buildRowTeam (retainedHeaders t) (retainedIndices t) cells = none ∧
    buildRowPlayers (retainedHeaders t) (retainedIndices t) cells = none := by
  refine ⟨?_, ?_, ?_, ?_⟩
  · intro k
    obtain ⟨cells', _, hb⟩ := List.mem_filterMap.mp hr
    obtain ⟨hl, hr'⟩ := buildRowTeam_eq _ _ _ _ hb
    rw [hr', mem_keys_foldl_rowStepTeam,
      List.map_fst_zip _ _ (le_of_eq hl.symm)]
    simp
  · intro k
    obtain ⟨cells', _, hb⟩ := List.mem_filterMap.mp hrp
    obtain ⟨hl, hr'⟩ := buildRowPlayers_eq _ _ _ _ hb
    rw [hr', mem_keys_foldl_rowStepPlayers,
      List.map_fst_zip _ _ (le_of_eq hl.symm)]
    simp
  · unfold buildRowTeam
    by_cases hc : cells = []
    · rw [if_pos hc]
    · rw [if_neg hc, if_pos hlen]
  · unfold buildRowPlayers
    by_cases hc : cells = []
    · rw [if_pos hc]
    · rw [if_neg hc, if_pos hlen]

/-- C5 (amended, witness). -/
theorem parse_table_row_keys_witness :
    ([("Joueur URL", "/fr/joueurs/a"), ("Joueur", "Alice"), ("MJ", "3")]
        ∈ (parse_table_team ⟨[[⟨"Joueur", none, none⟩, ⟨"MJ", none, none⟩]],
          [[⟨"Alice", some "/fr/joueurs/a", none⟩, ⟨"3", none, none⟩]]⟩).rows) ∧
    ("Joueur URL" ∈ ([("Joueur URL", "https://fbref.com/fr/joueurs/a"),
        ("Joueur", "Alice"), ("MJ", "3")] : Row).map Prod.fst ↔
      "Joueur URL" ∈ expandedKeysTeam ["Joueur", "MJ"]) := by
  have h := parse_table_row_keys
    ⟨[[⟨"Joueur", none, none⟩, ⟨"MJ", none, none⟩]],
      [[⟨"Alice", some "/fr/joueurs/a", none⟩, ⟨"3", none, none⟩]]⟩
    [("Joueur URL", "/fr/joueurs/a"), ("Joueur", "Alice"), ("MJ", "3")]
    [("Joueur URL", "https://fbref.com/fr/joueurs/a"), ("Joueur", "Alice"), ("MJ", "3")]
    (by decide) (by decide) [] (by decide)
  exact ⟨by decide, h.2.1 "Joueur URL"⟩


/-! ### Positional lemmas for the synthetic URL fields -/

/-- Lookup skips an appended prefix free of the key. -/
theorem rget_append_of_odMem_false {β : Type} (r s : List (String × β))
    (k : String) (h : odMem r k = false) : rget (r ++ s) k = rget s k := by
  induction r with
  | nil => rfl
  | cons p rest ih =>
    by_cases hp : p.1 = k
    · simp [odMem, hp] at h
    · simp only [odMem] at h
      rw [if_neg hp] at h
      simp only [List.cons_append, rget]
      rw [if_neg hp]
      exact ih h

/-- `odMem` distributes over append. -/
theorem odMem_append {β : Type} (r s : List (String × β)) (k : String) :
    odMem (r ++ s) k = (odMem r k || odMem s k) := by
  induction r with
  | nil => simp [odMem]
  | cons p rest ih =>
    simp only [List.cons_append, odMem]
    by_cases hp : p.1 = k
    · rw [if_pos hp, if_pos hp]; rfl
    · rw [if_neg hp, if_neg hp]; exact ih

/-- Re-inserting the value a key already has is a no-op. -/
theorem odInsert_rget_self {β : Type} (r : List (String × β)) (k : String)
    (v : β) (h : rget r k = some v) : odInsert r k v = r := by
  induction r with
  | nil => cases h
  | cons p rest ih =>
    obtain ⟨p1, p2⟩ := p
    simp only [rget] at h
    simp only [odInsert]
    by_cases hp : p1 = k
    · rw [if_pos hp] at h
      rw [if_pos hp]
      obtain rfl : p2 = v := Option.some.inj h
      rfl
    · rw [if_neg hp] at h
      rw [if_neg hp, ih h]

/-- The keys of the team-variant expansion. -/
theorem map_fst_expandedRowTeam (pairs : List (String × PCell)) :
    (expandedRowTeam pairs).map Prod.fst = expandedKeysTeam (pairs.map Prod.fst) := by
  induction pairs with
  | nil => rfl
  | cons p rest ih =>
    obtain ⟨h, c⟩ := p
    by_cases hj : lowerStr h = "joueur" <;>
      by_cases hr : lowerStr h = "rapport de match" <;>
        simp [expandedRowTeam, expandedKeysTeam, List.flatMap_cons, hj, hr] <;>
          simpa [expandedRowTeam, expandedKeysTeam] using ih

/-- The keys of the players-variant expansion. -/
theorem map_fst_expandedRowPlayers (pairs : List (String × PCell)) :
    (expandedRowPlayers pairs).map Prod.fst
      = expandedKeysPlayers (pairs.map Prod.fst) := by
  induction pairs with
  | nil => rfl
  | cons p rest ih =>
    obtain ⟨h, c⟩ := p
    by_cases hj : lowerStr h = "joueur" <;>
      simp [expandedRowPlayers, expandedKeysPlayers, List.flatMap_cons, hj] <;>
        simpa [expandedRowPlayers, expandedKeysPlayers] using ih

/-- Head expansion of the team-variant key list. -/
theorem expandedKeysTeam_cons (h : String) (hs : List String) :
    expandedKeysTeam (h :: hs) =
      ((if lowerStr h = "joueur" then ["Joueur URL"] else []) ++
       (if lowerStr h = "rapport de match" then ["Match URL"] else []) ++ [h]) ++
      expandedKeysTeam hs := by
  simp [expandedKeysTeam, List.flatMap_cons]

/-- Head expansion of the players-variant key list. -/
theorem expandedKeysPlayers_cons (h : String) (hs : List String) :
    expandedKeysPlayers (h :: hs) =
      ((if lowerStr h = "joueur" then ["Joueur URL"] else []) ++ [h]) ++
      expandedKeysPlayers hs := by
  simp [expandedKeysPlayers, List.flatMap_cons]

/-- When every key the team row loop inserts is fresh (distinct
expanded keys, none already bound), the loop appends the expanded
bindings in order. -/
theorem foldl_rowStepTeam_append (pairs : List (String × PCell)) :
    ∀ (r : Row), (expandedKeysTeam (pairs.map Prod.fst)).Nodup →
      (∀ k ∈ expandedKeysTeam (pairs.map Prod.fst), odMem r k = false) →
      pairs.foldl rowStepTeam r = r ++ expandedRowTeam pairs := by
  induction pairs with
  | nil => intro r _ _; simp [expandedRowTeam]
  | cons p rest ih =>
    intro r hnd hfresh
    obtain ⟨h, c⟩ := p
    rw [List.map_cons, expandedKeysTeam_cons] at hnd hfresh
    rw [List.foldl_cons]
    by_cases hj : lowerStr h = "joueur"
    · have hjr : ¬ lowerStr h = "rapport de match" := by rw [hj]; decide
      simp only [hj, hjr, if_true, if_false, ite_true, ite_false,
        String.reduceEq, reduceIte, List.nil_append, List.singleton_append,
        List.cons_append] at hnd hfresh
      have hfJ : odMem r "Joueur URL" = false := hfresh _ (List.mem_cons_self _ _)
      have hfH : odMem r h = false :=
        hfresh _ (List.mem_cons_of_mem _ (List.mem_cons_self _ _))
      have hne : ¬ h = "Joueur URL" := by
        intro hc
        exact (List.nodup_cons.mp hnd).1 (by rw [hc]; exact List.mem_cons_self _ _)
      have e2 : odInsert (r ++ [("Joueur URL", c.href.getD "")]) h c.text
          = r ++ [("Joueur URL", c.href.getD ""), (h, c.text)] := by
        rw [odInsert_of_odMem_false _ _ _
          (by rw [odMem_append]; simp [hfH, odMem, Ne.symm hne]), List.append_assoc]
        rfl
      have hstep : rowStepTeam r (h, c)
          = r ++ [("Joueur URL", c.href.getD ""), (h, c.text)] := by
        unfold rowStepTeam
        simp only [hj, hjr, if_true, if_false, ite_true, ite_false,
          String.reduceEq, reduceIte]
        rw [odInsert_of_odMem_false r "Joueur URL" (c.href.getD "") hfJ, e2]
        rw [odInsert_rget_self]
        rw [rget_append_of_odMem_false r _ h hfH]
        simp [rget, Ne.symm hne]
      rw [hstep, ih]
      · simp [expandedRowTeam, List.flatMap_cons, hj, hjr, List.append_assoc]
      · exact (List.nodup_cons.mp (List.nodup_cons.mp hnd).2).2
      · intro k hk
        have hk1 : ¬ k = "Joueur URL" := by
          intro hc
          exact (List.nodup_cons.mp hnd).1 (hc ▸ List.mem_cons_of_mem _ hk)
        have hk2 : ¬ k = h := by
          intro hc
          exact (List.nodup_cons.mp (List.nodup_cons.mp hnd).2).1 (hc ▸ hk)
        rw [odMem_append]
        simp [hfresh k (List.mem_cons_of_mem _ (List.mem_cons_of_mem _ hk)),
          odMem, Ne.symm hk1, Ne.symm hk2]
    · by_cases hr : lowerStr h = "rapport de match"
      · have hjn : ¬ lowerStr h = "joueur" := hj
        simp only [hjn, hr, if_true, if_false, ite_true, ite_false,
          String.reduceEq, reduceIte, List.nil_append, List.singleton_append,
          List.cons_append] at hnd hfresh
        have hfM : odMem r "Match URL" = false := hfresh _ (List.mem_cons_self _ _)
        have hfH : odMem r h = false :=
          hfresh _ (List.mem_cons_of_mem _ (List.mem_cons_self _ _))
        have hne : ¬ h = "Match URL" := by
          intro hc
          exact (List.nodup_cons.mp hnd).1 (by rw [hc]; exact List.mem_cons_self _ _)
        have hstep : rowStepTeam r (h, c)
            = r ++ [("Match URL", c.href.getD ""), (h, c.text)] := by
          unfold rowStepTeam
          simp only [hjn, hr, if_true, if_false, ite_true, ite_false,
            String.reduceEq, reduceIte]
          rw [odInsert_of_odMem_false r "Match URL" (c.href.getD "") hfM]
          rw [odInsert_of_odMem_false _ _ _
            (by rw [odMem_append]; simp [hfH, odMem, Ne.symm hne]), List.append_assoc]
          rfl
        rw [hstep, ih]
        · simp [expandedRowTeam, List.flatMap_cons, hjn, hr, List.append_assoc]
        · exact (List.nodup_cons.mp (List.nodup_cons.mp hnd).2).2
        · intro k hk
          have hk1 : ¬ k = "Match URL" := by
            intro hc
            exact (List.nodup_cons.mp hnd).1 (hc ▸ List.mem_cons_of_mem _ hk)
          have hk2 : ¬ k = h := by
            intro hc
            exact (List.nodup_cons.mp (List.nodup_cons.mp hnd).2).1 (hc ▸ hk)
          rw [odMem_append]
          simp [hfresh k (List.mem_cons_of_mem _ (List.mem_cons_of_mem _ hk)),
            odMem, Ne.symm hk1, Ne.symm hk2]
      · simp only [hj, hr, if_true, if_false, ite_true, ite_false,
          String.reduceEq, reduceIte, List.nil_append, List.singleton_append,
          List.cons_append] at hnd hfresh
        have hfH : odMem r h = false := hfresh _ (List.mem_cons_self _ _)
        have hstep : rowStepTeam r (h, c) = r ++ [(h, c.text)] := by
          unfold rowStepTeam
          simp only [hj, hr, if_true, if_false, ite_true, ite_false,
            String.reduceEq, reduceIte]
          exact odInsert_of_odMem_false r _ _ hfH
        rw [hstep, ih]
        · simp [expandedRowTeam, List.flatMap_cons, hj, hr, List.append_assoc]
        · exact (List.nodup_cons.mp hnd).2
        · intro k hk
          have hk2 : ¬ k = h := by
            intro hc
            exact (List.nodup_cons.mp hnd).1 (hc ▸ hk)
          rw [odMem_append]
          simp [hfresh k (List.mem_cons_of_mem _ hk), odMem, Ne.symm hk2]

/-- Players-variant analogue of `foldl_rowStepTeam_append`. -/
theorem foldl_rowStepPlayers_append (pairs : List (String × PCell)) :
    ∀ (r : Row), (expandedKeysPlayers (pairs.map Prod.fst)).Nodup →
      (∀ k ∈ expandedKeysPlayers (pairs.map Prod.fst), odMem r k = false) →
      pairs.foldl rowStepPlayers r = r ++ expandedRowPlayers pairs := by
  induction pairs with
  | nil => intro r _ _; simp [expandedRowPlayers]
  | cons p rest ih =>
    intro r hnd hfresh
    obtain ⟨h, c⟩ := p
    rw [List.map_cons, expandedKeysPlayers_cons] at hnd hfresh
    rw [List.foldl_cons]
    by_cases hj : lowerStr h = "joueur"
    · simp only [hj, if_true, if_false, ite_true, ite_false,
        String.reduceEq, reduceIte, List.nil_append, List.singleton_append,
        List.cons_append] at hnd hfresh
      have hfJ : odMem r "Joueur URL" = false := hfresh _ (List.mem_cons_self _ _)
      have hfH : odMem r h = false :=
        hfresh _ (List.mem_cons_of_mem _ (List.mem_cons_self _ _))
      have hne : ¬ h = "Joueur URL" := by
        intro hc
        exact (List.nodup_cons.mp hnd).1 (by rw [hc]; exact List.mem_cons_self _ _)
      have hstep : rowStepPlayers r (h, c)
          = r ++ [("Joueur URL", resolveJoueurHref c.href), (h, c.text)] := by
        unfold rowStepPlayers
        simp only [hj, if_true, ite_true, String.reduceEq, reduceIte]
        rw [odInsert_of_odMem_false r "Joueur URL" (resolveJoueurHref c.href) hfJ]
        rw [odInsert_of_odMem_false _ _ _
          (by rw [odMem_append]; simp [hfH, odMem, Ne.symm hne]), List.append_assoc]
        rfl
      rw [hstep, ih]
      · simp [expandedRowPlayers, List.flatMap_cons, hj, List.append_assoc]
      · exact (List.nodup_cons.mp (List.nodup_cons.mp hnd).2).2
      · intro k hk
        have hk1 : ¬ k = "Joueur URL" := by
          intro hc
          exact (List.nodup_cons.mp hnd).1 (hc ▸ List.mem_cons_of_mem _ hk)
        have hk2 : ¬ k = h := by
          intro hc
          exact (List.nodup_cons.mp (List.nodup_cons.mp hnd).2).1 (hc ▸ hk)
        rw [odMem_append]
        simp [hfresh k (List.mem_cons_of_mem _ (List.mem_cons_of_mem _ hk)),
          odMem, Ne.symm hk1, Ne.symm hk2]
    · simp only [hj, if_true, if_false, ite_true, ite_false,
        String.reduceEq, reduceIte, List.nil_append, List.singleton_append,
        List.cons_append] at hnd hfresh
      have hfH : odMem r h = false := hfresh _ (List.mem_cons_self _ _)
      have hstep : rowStepPlayers r (h, c) = r ++ [(h, c.text)] := by
        unfold rowStepPlayers
        simp only [hj, if_false, ite_false, String.reduceEq, reduceIte]
        exact odInsert_of_odMem_false r _ _ hfH
      rw [hstep, ih]
      · simp [expandedRowPlayers, List.flatMap_cons, hj, List.append_assoc]
      · exact (List.nodup_cons.mp hnd).2
      · intro k hk
        have hk2 : ¬ k = h := by
          intro hc
          exact (List.nodup_cons.mp hnd).1 (hc ▸ hk)
        rw [odMem_append]
        simp [hfresh k (List.mem_cons_of_mem _ hk), odMem, Ne.symm hk2]


/-- Append expansion of the key lists and row expansions. -/
theorem expandedKeysTeam_append (a b : List String) :
    expandedKeysTeam (a ++ b) = expandedKeysTeam a ++ expandedKeysTeam b := by
  simp [expandedKeysTeam, List.flatMap_append]

/-- Append expansion (players keys). -/
theorem expandedKeysPlayers_append (a b : List String) :
    expandedKeysPlayers (a ++ b) = expandedKeysPlayers a ++ expandedKeysPlayers b := by
  simp [expandedKeysPlayers, List.flatMap_append]

/-- Append expansion (team rows). -/
theorem expandedRowTeam_append (a b : List (String × PCell)) :
    expandedRowTeam (a ++ b) = expandedRowTeam a ++ expandedRowTeam b := by
  simp [expandedRowTeam, List.flatMap_append]

/-- Cons expansion (team rows). -/
theorem expandedRowTeam_cons (p : String × PCell) (ps : List (String × PCell)) :
    expandedRowTeam (p :: ps) =
      ((if lowerStr p.1 = "joueur" then [("Joueur URL", p.2.href.getD "")] else []) ++
       (if lowerStr p.1 = "rapport de match" then [("Match URL", p.2.href.getD "")]
        else []) ++ [(p.1, p.2.text)]) ++ expandedRowTeam ps := by
  simp [expandedRowTeam, List.flatMap_cons]

/-- Append expansion (players rows). -/
theorem expandedRowPlayers_append (a b : List (String × PCell)) :
    expandedRowPlayers (a ++ b) = expandedRowPlayers a ++ expandedRowPlayers b := by
  simp [expandedRowPlayers, List.flatMap_append]

/-- Cons expansion (players rows). -/
theorem expandedRowPlayers_cons (p : String × PCell) (ps : List (String × PCell)) :
    expandedRowPlayers (p :: ps) =
      ((if lowerStr p.1 = "joueur" then [("Joueur URL", resolveJoueurHref p.2.href)]
        else []) ++ [(p.1, p.2.text)]) ++ expandedRowPlayers ps := by
  simp [expandedRowPlayers, List.flatMap_cons]

/-- C6 (counterexample): on a table whose `"Joueur"` cell carries the
relative anchor `/fr/joueurs/a`, get_team_data.py's `parse_table`
stores the raw href as `"Joueur URL"`, which differs from the
absolute-resolved form the claim demands (and which
fbref_players_data.py's `parse_table` does produce). -/
theorem parse_table_team_joueur_url_counterexample :
    ((parse_table_team ⟨[[⟨"Joueur", none, none⟩, ⟨"MJ", none, none⟩]],
        [[⟨"Alice", some "/fr/joueurs/a", none⟩, ⟨"3", none, none⟩]]⟩).rows.map
      (fun r => rget r "Joueur URL")) = [some "/fr/joueurs/a"] ∧
    urljoin_fbref "/fr/joueurs/a" = "https://fbref.com/fr/joueurs/a" ∧
    ("/fr/joueurs/a" : String) ≠ "https://fbref.com/fr/joueurs/a" ∧
    ((parse_table_players ⟨[[⟨"Joueur", none, none⟩, ⟨"MJ", none, none⟩]],
        [[⟨"Alice", some "/fr/joueurs/a", none⟩, ⟨"3", none, none⟩]]⟩).rows.map
      (fun r => rget r "Joueur URL")) = [some "https://fbref.com/fr/joueurs/a"] := by
  refine ⟨rfl, rfl, by decide, rfl⟩

/-- C6 (amended): in fbref_players_data.py's `parse_table` every
emitted row of a table with a retained `"Joueur"` column carries a
`"Joueur URL"` field equal to the anchor's href absolute-resolved
against the site base URL when relative (empty string when no anchor),
inserted immediately before the `"Joueur"` field; get_team_data.py's
`parse_table` inserts the field at the same place but stores the raw
href unresolved. -/
theorem parse_table_joueur_url_field (t : HtmlTable) (cells : List PCell)
    (rT rP : Row) (hpre hpost : List String) (hj : String) (cj : PCell)
    (hsplit : retainedHeaders t = hpre ++ hj :: hpost)
    (hjl : lowerStr hj = "joueur")
    (hcj : (filteredCells (retainedIndices t) cells).get? hpre.length = some cj)
    (hndT : (expandedKeysTeam (retainedHeaders t)).Nodup)
    (hndP : (expandedKeysPlayers (retainedHeaders t)).Nodup)
    (hT : buildRowTeam (retainedHeaders t) (retainedIndices t) cells = some rT)
    (hP : buildRowPlayers (retainedHeaders t) (retainedIndices t) cells = some rP) :
    rget rP "Joueur URL" = some (resolveJoueurHref cj.href) ∧
    (∃ p s, rP = p ++ ("Joueur URL", resolveJoueurHref cj.href) :: (hj, cj.text) :: s) ∧
    rget rT "Joueur URL" = some (cj.href.getD "") ∧
    (∃ p s, rT = p ++ ("Joueur URL", cj.href.getD "") :: (hj, cj.text) :: s) := by
  have hjr : ¬ lowerStr hj = "rapport de match" := by rw [hjl]; decide
  obtain ⟨hlT, hrT⟩ := buildRowTeam_eq _ _ _ _ hT
  obtain ⟨hlP, hrP⟩ := buildRowPlayers_eq _ _ _ _ hP
  have hcj' : (filteredCells (retainedIndices t) cells)[hpre.length]? = some cj := by
    rw [← List.get?_eq_getElem?]; exact hcj
  have hlt : hpre.length < (filteredCells (retainedIndices t) cells).length := by
    by_contra hge
    push_neg at hge
    rw [List.getElem?_eq_none hge] at hcj'
    cases hcj'
  have hcjeq : (filteredCells (retainedIndices t) cells)[hpre.length] = cj := by
    rw [List.getElem?_eq_getElem hlt] at hcj'
    exact Option.some.inj hcj'
  have hlen_take :
      ((filteredCells (retainedIndices t) cells).take hpre.length).length
        = hpre.length := by
    rw [List.length_take]; omega
  have hfc : filteredCells (retainedIndices t) cells
      = (filteredCells (retainedIndices t) cells).take hpre.length ++
        cj :: (filteredCells (retainedIndices t) cells).drop (hpre.length + 1) := by
    conv_lhs => rw [← List.take_append_drop hpre.length
      (filteredCells (retainedIndices t) cells)]
    rw [List.drop_eq_getElem_cons hlt, hcjeq]
  have hzip : (retainedHeaders t).zip (filteredCells (retainedIndices t) cells)
      = (hpre.zip ((filteredCells (retainedIndices t) cells).take hpre.length)) ++
        (hj, cj) ::
        (hpost.zip ((filteredCells (retainedIndices t) cells).drop (hpre.length + 1))) := by
    conv_lhs => rw [hsplit, hfc]
    rw [List.zip_append hlen_take.symm, List.zip_cons_cons]
  have hmapfst : ((retainedHeaders t).zip
      (filteredCells (retainedIndices t) cells)).map Prod.fst = retainedHeaders t :=
    List.map_fst_zip _ _ (le_of_eq hlP.symm)
  -- the two builds expand to the flat association lists
  have hfoldT : rT = expandedRowTeam
      ((retainedHeaders t).zip (filteredCells (retainedIndices t) cells)) := by
    rw [hrT, foldl_rowStepTeam_append _ [] (by rw [hmapfst]; exact hndT)
      (fun k _ => rfl)]
    rfl
  have hfoldP : rP = expandedRowPlayers
      ((retainedHeaders t).zip (filteredCells (retainedIndices t) cells)) := by
    rw [hrP, foldl_rowStepPlayers_append _ [] (by rw [hmapfst]; exact hndP)
      (fun k _ => rfl)]
    rfl
  have hrowT : rT = expandedRowTeam
      (hpre.zip ((filteredCells (retainedIndices t) cells).take hpre.length)) ++
      ("Joueur URL", cj.href.getD "") :: (hj, cj.text) ::
      expandedRowTeam (hpost.zip
        ((filteredCells (retainedIndices t) cells).drop (hpre.length + 1))) := by
    rw [hfoldT, hzip, expandedRowTeam_append, expandedRowTeam_cons]
    simp [hjl, hjr]
  have hrowP : rP = expandedRowPlayers
      (hpre.zip ((filteredCells (retainedIndices t) cells).take hpre.length)) ++
      ("Joueur URL", resolveJoueurHref cj.href) :: (hj, cj.text) ::
      expandedRowPlayers (hpost.zip
        ((filteredCells (retainedIndices t) cells).drop (hpre.length + 1))) := by
    rw [hfoldP, hzip, expandedRowPlayers_append, expandedRowPlayers_cons]
    simp [hjl]
  -- "Joueur URL" is not among the keys contributed by the earlier columns
  have hJmem : "Joueur URL" ∈ expandedKeysPlayers (hj :: hpost) := by
    rw [expandedKeysPlayers_cons]
    simp [hjl]
  have hJmemT : "Joueur URL" ∈ expandedKeysTeam (hj :: hpost) := by
    rw [expandedKeysTeam_cons]
    simp [hjl]
  have hJpreP : "Joueur URL" ∉ expandedKeysPlayers hpre := by
    intro hc
    rw [hsplit, expandedKeysPlayers_append] at hndP
    exact (List.nodup_append.mp hndP).2.2 hc hJmem
  have hJpreT : "Joueur URL" ∉ expandedKeysTeam hpre := by
    intro hc
    rw [hsplit, expandedKeysTeam_append] at hndT
    exact (List.nodup_append.mp hndT).2.2 hc hJmemT
  have hmapfst_pre : (hpre.zip
      ((filteredCells (retainedIndices t) cells).take hpre.length)).map Prod.fst
      = hpre := List.map_fst_zip _ _ (le_of_eq hlen_take.symm)
  have hodP : odMem (expandedRowPlayers (hpre.zip
      ((filteredCells (retainedIndices t) cells).take hpre.length))) "Joueur URL"
      = false := by
    rw [Bool.eq_false_iff]
    intro hc
    rw [odMem_iff_mem_keys, map_fst_expandedRowPlayers, hmapfst_pre] at hc
    exact hJpreP hc
  have hodT : odMem (expandedRowTeam (hpre.zip
      ((filteredCells (retainedIndices t) cells).take hpre.length))) "Joueur URL"
      = false := by
    rw [Bool.eq_false_iff]
    intro hc
    rw [odMem_iff_mem_keys, map_fst_expandedRowTeam, hmapfst_pre] at hc
    exact hJpreT hc
  refine ⟨?_, ⟨_, _, hrowP⟩, ?_, ⟨_, _, hrowT⟩⟩
  · rw [hrowP, rget_append_of_odMem_false _ _ _ hodP]
    simp [rget]
  · rw [hrowT, rget_append_of_odMem_false _ _ _ hodT]
    simp [rget]

/-- C6 (amended, witness). -/
theorem parse_table_joueur_url_field_witness :
    (retainedHeaders ⟨[[⟨"Joueur", none, none⟩, ⟨"MJ", none, none⟩]],
        [[⟨"Alice", some "/fr/joueurs/a", none⟩, ⟨"3", none, none⟩]]⟩
      = [] ++ "Joueur" :: ["MJ"]) ∧
    (∃ p s, [("Joueur URL", "https://fbref.com/fr/joueurs/a"),
        ("Joueur", "Alice"), ("MJ", "3")]
      = p ++ ("Joueur URL",
          resolveJoueurHref (some "/fr/joueurs/a")) :: ("Joueur", "Alice") :: s) := by
  have h := parse_table_joueur_url_field
    ⟨[[⟨"Joueur", none, none⟩, ⟨"MJ", none, none⟩]],
      [[⟨"Alice", some "/fr/joueurs/a", none⟩, ⟨"3", none, none⟩]]⟩
    [⟨"Alice", some "/fr/joueurs/a", none⟩, ⟨"3", none, none⟩]
    [("Joueur URL", "/fr/joueurs/a"), ("Joueur", "Alice"), ("MJ", "3")]
    [("Joueur URL", "https://fbref.com/fr/joueurs/a"), ("Joueur", "Alice"), ("MJ", "3")]
    [] ["MJ"] "Joueur" ⟨"Alice", some "/fr/joueurs/a", none⟩
    rfl rfl rfl (by decide) (by decide) rfl rfl
  refine ⟨rfl, ?_⟩
  obtain ⟨_, h2, _, _⟩ := h
  exact h2

end Betylitics
